import Mathlib

/-!
Verification of the minstall dependency resolution and placement engine.

The development shallowly embeds the core of the installer:
the request coalescer (`findRequestedDependencies`), the hoist planner
(`determineDependencyTargetFolder`), the satisfaction filter
(`removeAlreadySatisfiedDependencies`), the symlink repair decision
(`fixMissingDependenciesWithSymlinks`), the `ModuleInfo` constructor's
bin normalization, and `systools.delete`.

Modelling conventions:
* Filesystem paths are lists of path segments relative to the project root
  (`cwd`); the project root itself is `[]`.  The source manipulates absolute
  path strings via `substr(cwd.length)` and `split(path.sep)`; on normalized
  absolute paths below the root both views coincide, and `path.join` becomes
  list append.
* JavaScript objects used as string-keyed maps are association lists with
  unique keys; `obj[k] = v` updates in place when the key exists and appends
  otherwise, `delete obj[k]` removes the entry.
* The external semver primitives (`semver.validRange`, `semver.satisfies`,
  `semver-intersect`'s `intersect`, `minimatch`) are opaque capabilities of
  the engine; they are a parameter `S : SemverOps`.  A thrown exception of
  `intersect` is its `none` result, exactly the way every caller in the
  source consumes it (`try { ... } catch { continue/return false }`).
-/

set_option autoImplicit false

/-- Opaque external primitives used by the engine: semver range validation,
version-satisfies-range, range intersection (`none` models the exception the
JS library throws when ranges do not intersect or do not parse), and glob
matching of package names. -/
structure SemverOps where
  validRange : String → Bool
  satisfies : String → String → Bool
  intersect : String → String → Option String
  minimatch : String → String → Bool

/-- A filesystem path as the list of its segments below the project root. -/
abbrev ModulePath := List String

section ObjectOps

variable {α : Type} {β : Type} {γ : Type} [DecidableEq α]

/-- Property access `m[k]` of a JavaScript object modelled as an association
list: the value at the first matching key, `none` for `undefined`. -/
def objLookup : List (α × β) → α → Option β
  | [], _ => none
  | (k, v) :: rest, a => if k = a then some v else objLookup rest a

/-- Key-presence test `m[k] !== undefined`. -/
def objContains (m : List (α × β)) (a : α) : Bool :=
  (objLookup m a).isSome

/-- Assignment `m[k] = v`: update in place when the key exists (keys of a
JavaScript object are unique, so the first occurrence is the only one),
append the new entry at the end otherwise. -/
def objSet : List (α × β) → α → β → List (α × β)
  | [], a, b => [(a, b)]
  | p :: rest, a, b => if p.1 = a then (a, b) :: rest else p :: objSet rest a b

/-- Deletion `delete m[k]`. -/
def objDelete (m : List (α × β)) (a : α) : List (α × β) :=
  m.filter (fun p => decide (p.1 ≠ a))

/-- The idiom `if (!m[k]) { m[k] = [] } ; m[k].push(x)`. -/
def objPush (m : List (α × List γ)) (a : α) (x : γ) : List (α × List γ) :=
  objSet m a (((objLookup m a).getD []) ++ [x])

/-- The key list of a JavaScript object. -/
def objKeys (m : List (α × β)) : List α :=
  m.map Prod.fst

end ObjectOps

/-- An entry of the no-hoist list (`interfaces.ts`, `DependencyInfo` as it is
used for no-hoist rules): `versionRange = none` models the `undefined`
version range of a rule given without a range. -/
structure DependencyInfo where
  name : String
  versionRange : Option String
  identifier : String
deriving DecidableEq, Repr

/-- `DependencyRequestInfo` of `interfaces.ts`: one coalesced request. -/
structure DependencyRequestInfo where
  name : String
  versionRange : String
  identifier : String
  requestedBy : List ModulePath
deriving DecidableEq, Repr

/-- The fields of `ModuleInfo` consumed by the resolution and placement
engine.  `location` is the enclosing folder, `fullModulePath` the module
folder itself, `folderName` the canonical folder under `node_modules`
(two segments for scoped names), `bin` the normalized bin entries. -/
structure ModuleInfo where
  name : String
  version : String
  location : ModulePath
  fullModulePath : ModulePath
  folderName : List String
  dependencies : List (String × String)
  bin : List (String × String)
deriving DecidableEq, Repr

/-- `DependencyTargetFolder` of `interfaces.ts`: the placement plan, a map
from target folder to the requests planned for installation there. -/
abbrev DependencyTargetFolder := List (ModulePath × List DependencyRequestInfo)

/-- The inner map of `DependencyRequests`: requested range to requesters. -/
abbrev RangeMap := List (String × List ModulePath)

/-- `DependencyRequests` of `interfaces.ts`: dependency name to range map. -/
abbrev DependencyRequests := List (String × RangeMap)

/-! ## Hoist planner (`determineDependencyTargetFolder` and helpers) -/

/-- `_dontHoistDependency`: append the request to the plan entry of every
path in its requester list. -/
def _dontHoistDependency (plan : DependencyTargetFolder) (requestedDependency : DependencyRequestInfo) :
    DependencyTargetFolder :=
  requestedDependency.requestedBy.foldl
    (fun pl installationTarget => objPush pl installationTarget requestedDependency) plan

/-- `_findMatchingNoHoistEntry`: the first no-hoist rule whose name glob
matches the request and whose range (when present) equals or intersects the
requested range. -/
def _findMatchingNoHoistEntry (S : SemverOps) (requestedDependency : DependencyRequestInfo)
    (noHoistList : List DependencyInfo) : Option DependencyInfo :=
  noHoistList.find? fun noHoistEntry =>
    if !S.minimatch requestedDependency.name noHoistEntry.name then false
    else
      match noHoistEntry.versionRange with
      | none => true
      | some vr =>
        if requestedDependency.versionRange = vr then true
        else (S.intersect requestedDependency.versionRange vr).isSome

/-- `_handleIfDependencyIsAlreadyOnInstallList`: does any entry anywhere in
the plan carry the same identifier? -/
def _handleIfDependencyIsAlreadyOnInstallList (requestedDependency : DependencyRequestInfo)
    (plan : DependencyTargetFolder) : Bool :=
  plan.any fun e => e.2.any fun m => decide (m.identifier = requestedDependency.identifier)

/-- `_handleIfConflictingDependencyIsAlreadyInstalled`: does an installed
artifact with the same name live directly in `join(currentPath, "node_modules")`?
The source compares only name and location; the installed version plays no
role in this check. -/
def _handleIfConflictingDependencyIsAlreadyInstalled (currentPath : ModulePath)
    (requestedDependency : DependencyRequestInfo)
    (alreadyInstalledDependencies : List ModuleInfo) : Bool :=
  alreadyInstalledDependencies.any fun d =>
    decide (d.name = requestedDependency.name) &&
    decide (d.location = currentPath ++ ["node_modules"])

/-- `_handleIfConflictingDependencyWillBeInstalled`: is an entry with the
same name but a different range already planned at exactly `currentPath`? -/
def _handleIfConflictingDependencyWillBeInstalled (currentPath : ModulePath)
    (requestedDependency : DependencyRequestInfo)
    (plan : DependencyTargetFolder) : Bool :=
  match objLookup plan currentPath with
  | none => false
  | some l => l.any fun t =>
      decide (t.name = requestedDependency.name) &&
      decide (t.versionRange ≠ requestedDependency.versionRange)

/-- The `installModuleHere` condition of the placement loop: none of the
three conflict checks fires at `currentPath`. -/
def _installModuleHere (plan : DependencyTargetFolder) (installed : List ModuleInfo)
    (requestedDependency : DependencyRequestInfo) (currentPath : ModulePath) : Bool :=
  !(_handleIfDependencyIsAlreadyOnInstallList requestedDependency plan
    || _handleIfConflictingDependencyIsAlreadyInstalled currentPath requestedDependency installed
    || _handleIfConflictingDependencyWillBeInstalled currentPath requestedDependency plan)

/-- `path.join(currentPath, pathElement)`: joining the empty sentinel
segment leaves the path unchanged. -/
def pathJoin (p : ModulePath) (e : String) : ModulePath :=
  if e = "" then p else p ++ [e]

/-- The inner candidate loop of `determineDependencyTargetFolder`: check the
current path first, then descend by one path element; place at the first
path where `installModuleHere` holds. -/
def _placementScan (plan : DependencyTargetFolder) (installed : List ModuleInfo)
    (requestedDependency : DependencyRequestInfo) :
    ModulePath → List String → DependencyTargetFolder
  | _, [] => plan
  | currentPath, e :: rest =>
    if _installModuleHere plan installed requestedDependency currentPath then
      objPush plan currentPath requestedDependency
    else
      _placementScan plan installed requestedDependency (pathJoin currentPath e) rest

/-- `_dontHoistInvalidSemverRequests`: when the requested range is not valid
semver, install the request to every requester folder; the returned flag says
whether this applied. -/
def _dontHoistInvalidSemverRequests (S : SemverOps) (requestedDependency : DependencyRequestInfo)
    (plan : DependencyTargetFolder) : Bool × DependencyTargetFolder :=
  if S.validRange requestedDependency.versionRange then (false, plan)
  else (true, _dontHoistDependency plan requestedDependency)

/-- `_dontHoistExcludedDependencies`: when a no-hoist rule matches, install
the request to every requester folder; the flag says whether this applied. -/
def _dontHoistExcludedDependencies (S : SemverOps) (requestedDependency : DependencyRequestInfo)
    (plan : DependencyTargetFolder) (noHoistList : List DependencyInfo) :
    Bool × DependencyTargetFolder :=
  match _findMatchingNoHoistEntry S requestedDependency noHoistList with
  | none => (false, plan)
  | some _ => (true, _dontHoistDependency plan requestedDependency)

/-- The body of the outer request loop of `determineDependencyTargetFolder`:
short-circuit non-hoistable requests (`continue`), otherwise run the
candidate scan down the first requester's path with the trailing empty
sentinel segment appended. -/
def determineStep (S : SemverOps) (noHoistList : List DependencyInfo)
    (installed : List ModuleInfo) (plan : DependencyTargetFolder)
    (requestedDependency : DependencyRequestInfo) : DependencyTargetFolder :=
  let r1 := _dontHoistInvalidSemverRequests S requestedDependency plan
  if r1.1 then r1.2
  else
    let r2 := _dontHoistExcludedDependencies S requestedDependency r1.2 noHoistList
    if r2.1 then r2.2
    else
      let possiblePathElements :=
        ((requestedDependency.requestedBy.headD []).filter fun s => 0 < s.length) ++ [""]
      _placementScan r2.2 installed requestedDependency [] possiblePathElements

/-- `determineDependencyTargetFolder` (the `interfaces.ts` variant, which
treats the no-hoist short-circuit as terminal): fold the per-request step
over the request list, starting from the empty plan. -/
def determineDependencyTargetFolder (S : SemverOps)
    (requestedDependencyArray : List DependencyRequestInfo)
    (alreadyInstalledDependencies : List ModuleInfo)
    (noHoistList : List DependencyInfo) : DependencyTargetFolder :=
  requestedDependencyArray.foldl (determineStep S noHoistList alreadyInstalledDependencies) []

/-- The candidate target folders of the placement scan: all path prefixes of
the requester path, from the project root down to the full path. -/
def candidatePaths : List String → List ModulePath
  | [] => [[]]
  | s :: rest => [] :: (candidatePaths rest).map (fun p => s :: p)

/-! ## Request coalescer (`findRequestedDependencies`) -/

/-- The scan of the inner `for (const version in ...)` loop: the first
already-stored range whose intersection with the requested range succeeds,
together with that intersection.  A thrown intersection (`none`) makes the
loop `continue`. -/
def _findFirstIntersection (S : SemverOps) (requestedVersion : String) :
    RangeMap → Option (String × String)
  | [] => none
  | (version, _) :: rest =>
    match S.intersect version requestedVersion with
    | some intersection => some (version, intersection)
    | none => _findFirstIntersection S requestedVersion rest

/-- The body of the per-dependency insertion of `findRequestedDependencies`:
merge the requested range into the range map of one dependency name.  On the
first successful intersection the stored key is rewritten to the intersection
(keeping its requester list) and the module is appended; otherwise the module
is appended to a textually identical existing key, or a fresh singleton key
is created. -/
def _insertRequestedVersion (S : SemverOps) (m : RangeMap) (requestedVersion : String)
    (fullModulePath : ModulePath) : RangeMap :=
  match _findFirstIntersection S requestedVersion m with
  | some (version, intersection) =>
    let m1 :=
      if intersection = version then m
      else objDelete (objSet m intersection ((objLookup m version).getD [])) version
    objPush m1 intersection fullModulePath
  | none =>
    match objLookup m requestedVersion with
    | some l => objSet m requestedVersion (l ++ [fullModulePath])
    | none => m ++ [(requestedVersion, [fullModulePath])]

/-- `findRequestedDependencies`: coalesce the declared dependencies of all
local modules into `DependencyRequests`, in module and declaration order. -/
def findRequestedDependencies (S : SemverOps) (localModules : List ModuleInfo) :
    DependencyRequests :=
  localModules.foldl
    (fun rd module =>
      module.dependencies.foldl
        (fun rd dep =>
          objSet rd dep.1
            (_insertRequestedVersion S ((objLookup rd dep.1).getD []) dep.2 module.fullModulePath))
        rd)
    []

/-! ## Satisfaction filter (`removeAlreadySatisfiedDependencies`) -/

/-- `_handleInstalledModuleSatisfiesDependency`: delete the `(name, range)`
entry when some installed artifact of the same name satisfies the range. -/
def _handleInstalledModuleSatisfiesDependency (S : SemverOps) (dependencyName : String)
    (dependencyVersionRange : String) (alreadyInstalledDependencies : List ModuleInfo)
    (remainingDependencies : DependencyRequests) : DependencyRequests :=
  match alreadyInstalledDependencies.find? (fun d =>
      decide (d.name = dependencyName) && S.satisfies d.version dependencyVersionRange) with
  | some _ =>
    objSet remainingDependencies dependencyName
      (objDelete ((objLookup remainingDependencies dependencyName).getD []) dependencyVersionRange)
  | none => remainingDependencies

/-- The per-module satisfaction condition of the local-module check: a valid
range satisfied by the local version, or an invalid range trusted via the
`assumeLocalModulesSatisfyNonSemverDependencyVersions` flag. -/
def _localModuleSatisfies (S : SemverOps)
    (assumeLocalModulesSatisfyNonSemverDependencyVersions : Bool)
    (dependencyName dependencyVersionRange : String) (localModule : ModuleInfo) : Bool :=
  decide (localModule.name = dependencyName) &&
    ((S.validRange dependencyVersionRange && S.satisfies localModule.version dependencyVersionRange)
     || (!S.validRange dependencyVersionRange
         && assumeLocalModulesSatisfyNonSemverDependencyVersions))

/-- `_handleLocalModuleSatisfiesDependency`: delete the `(name, range)` entry
when some local module satisfies it under the local-module rules. -/
def _handleLocalModuleSatisfiesDependency (S : SemverOps) (dependencyName : String)
    (dependencyVersionRange : String) (localModules : List ModuleInfo)
    (assumeLocalModulesSatisfyNonSemverDependencyVersions : Bool)
    (remainingDependencies : DependencyRequests) : DependencyRequests :=
  match localModules.find? (_localModuleSatisfies S
      assumeLocalModulesSatisfyNonSemverDependencyVersions dependencyName
      dependencyVersionRange) with
  | some _ =>
    objSet remainingDependencies dependencyName
      (objDelete ((objLookup remainingDependencies dependencyName).getD []) dependencyVersionRange)
  | none => remainingDependencies

/-- The body of the inner range loop of `removeAlreadySatisfiedDependencies`:
the installed check, then (when the entry survived and local modules will be
linked) the local-module check. -/
def _filterRangeStep (S : SemverOps) (localModules alreadyInstalledDependencies : List ModuleInfo)
    (linkModules assumeLocalModulesSatisfyNonSemverDependencyVersions : Bool)
    (dependencyName : String) (remainingDependencies : DependencyRequests)
    (dependencyVersionRange : String) : DependencyRequests :=
  let rd1 := _handleInstalledModuleSatisfiesDependency S dependencyName dependencyVersionRange
    alreadyInstalledDependencies remainingDependencies
  let dependencyIsAlreadySatisfied :=
    objLookup ((objLookup rd1 dependencyName).getD []) dependencyVersionRange = none
  if dependencyIsAlreadySatisfied ∨ linkModules = false then rd1
  else
    _handleLocalModuleSatisfiesDependency S dependencyName dependencyVersionRange localModules
      assumeLocalModulesSatisfyNonSemverDependencyVersions rd1

/-- The body of the outer name loop of `removeAlreadySatisfiedDependencies`:
process every stored range of the dependency, then drop the name when no
range survived. -/
def _filterNameStep (S : SemverOps) (localModules alreadyInstalledDependencies : List ModuleInfo)
    (linkModules assumeLocalModulesSatisfyNonSemverDependencyVersions : Bool)
    (remainingDependencies : DependencyRequests) (dependencyName : String) :
    DependencyRequests :=
  let ranges := objKeys ((objLookup remainingDependencies dependencyName).getD [])
  let rd1 := ranges.foldl
    (_filterRangeStep S localModules alreadyInstalledDependencies linkModules
      assumeLocalModulesSatisfyNonSemverDependencyVersions dependencyName)
    remainingDependencies
  if ((objLookup rd1 dependencyName).getD []).isEmpty then objDelete rd1 dependencyName
  else rd1

/-- `removeAlreadySatisfiedDependencies`: drop every request entry already
met by an installed artifact, or (when local modules will be linked) by a
local module; dependency names whose entries are all dropped disappear. -/
def removeAlreadySatisfiedDependencies (S : SemverOps)
    (requestedDependencies : DependencyRequests)
    (localModules alreadyInstalledDependencies : List ModuleInfo)
    (linkModules assumeLocalModulesSatisfyNonSemverDependencyVersions : Bool) :
    DependencyRequests :=
  (objKeys requestedDependencies).foldl
    (_filterNameStep S localModules alreadyInstalledDependencies linkModules
      assumeLocalModulesSatisfyNonSemverDependencyVersions)
    requestedDependencies

/-- The per-entry drop condition as the specification states it: some
installed artifact of the same name satisfies the range, or local modules
will be linked and some local module satisfies it under the local rules. -/
def dropCondition (S : SemverOps) (localModules alreadyInstalledDependencies : List ModuleInfo)
    (linkModules assumeLocalModulesSatisfyNonSemverDependencyVersions : Bool)
    (dependencyName dependencyVersionRange : String) : Bool :=
  alreadyInstalledDependencies.any (fun d =>
      decide (d.name = dependencyName) && S.satisfies d.version dependencyVersionRange)
  || (linkModules && localModules.any (_localModuleSatisfies S
      assumeLocalModulesSatisfyNonSemverDependencyVersions dependencyName
      dependencyVersionRange))

/-! ## Symlink repair (`fixMissingDependenciesWithSymlinks`) -/

/-- The scan of the installed artifacts in `fixMissingDependenciesWithSymlinks`:
returns `(dependencyAlreadyInstalled, fittingInstalledModule)`.  An artifact
installed at exactly the module's own `node_modules/<canonical folder>` stops
the scan; otherwise the latest satisfying artifact is remembered. -/
def _scanInstalledForDependency (S : SemverOps) (module : ModuleInfo)
    (dependency requestedDependencyVersionRange : String) :
    List ModuleInfo → Option ModuleInfo → Bool × Option ModuleInfo
  | [], fitting => (false, fitting)
  | installedModule :: rest, fitting =>
    if installedModule.name ≠ dependency then
      _scanInstalledForDependency S module dependency requestedDependencyVersionRange rest fitting
    else if installedModule.fullModulePath
        = module.fullModulePath ++ ["node_modules"] ++ installedModule.folderName then
      (true, some installedModule)
    else if S.satisfies installedModule.version requestedDependencyVersionRange then
      _scanInstalledForDependency S module dependency requestedDependencyVersionRange rest
        (some installedModule)
    else
      _scanInstalledForDependency S module dependency requestedDependencyVersionRange rest fitting

/-- The decision taken for one `(module, dependency, range)` triple by the
symlink repair pass. -/
inductive SymlinkDecision where
  /-- The dependency is installed directly in the module's own
  `node_modules`; no link is created. -/
  | alreadyInstalled (installedModule : ModuleInfo)
  /-- A link is created to the chosen source module. -/
  | link (source : ModuleInfo)
  /-- No source was found; an error is logged and the pass continues. -/
  | noSourceError
deriving DecidableEq, Repr

/-- The per-dependency source choice of `fixMissingDependenciesWithSymlinks`:
direct install wins, otherwise (when local modules are linked) a satisfying
local module overrides a satisfying installed artifact located elsewhere,
otherwise the remembered installed artifact; failing everything, the error
decision. -/
def _symlinkDecisionFor (S : SemverOps)
    (linkModules assumeLocalModulesSatisfyNonSemverDependencyVersions : Bool)
    (localModules installedDependencies : List ModuleInfo) (module : ModuleInfo)
    (dependency requestedDependencyVersionRange : String) : SymlinkDecision :=
  let scanned := _scanInstalledForDependency S module dependency
    requestedDependencyVersionRange installedDependencies none
  let dependencyAlreadyInstalled := scanned.1
  let fittingInstalledModule :=
    if (scanned.2.isNone || !dependencyAlreadyInstalled) && linkModules then
      match localModules.find? (fun localModule =>
          decide (localModule.name = dependency) &&
          ((S.validRange requestedDependencyVersionRange
              && S.satisfies localModule.version requestedDependencyVersionRange)
            || (!S.validRange requestedDependencyVersionRange
              && assumeLocalModulesSatisfyNonSemverDependencyVersions))) with
      | some localModule => some localModule
      | none => scanned.2
    else scanned.2
  if dependencyAlreadyInstalled then
    SymlinkDecision.alreadyInstalled (scanned.2.getD module)
  else
    match fittingInstalledModule with
    | none => SymlinkDecision.noSourceError
    | some source => SymlinkDecision.link source

/-! ## ModuleInfo constructor: bin normalization and canonical folder name -/

/-- The three shapes of the manifest `bin` field. -/
inductive BinField where
  /-- `bin` is absent (`undefined` or `null`). -/
  | absent
  /-- `bin` is a single string. -/
  | single (s : String)
  /-- `bin` is a mapping of command name to executable path. -/
  | mapping (m : List (String × String))
deriving DecidableEq, Repr

/-- The bin normalization of the `ModuleInfo` constructor: absent becomes
empty, a single string becomes a one-entry mapping keyed by the full package
name, a mapping passes through. -/
def moduleInfoBinEntries (name : String) : BinField → List (String × String)
  | BinField.absent => []
  | BinField.single s => [(name, s)]
  | BinField.mapping m => m

/-- The canonical folder name computation of the `ModuleInfo` constructor:
a name starting with `@` is split at `/` and the first two parts joined. -/
def moduleInfoFolderName (name : String) : String :=
  if name.front = '@' then
    let moduleNameParts := name.splitOn "/"
    (moduleNameParts.headD "") ++ "/" ++ (moduleNameParts.getD 1 "")
  else name

/-! ## systools.delete -/

/-- The outcome reported by the filesystem removal primitive `fs.remove`:
`none` is success, `some code` an error with that `error.code`. -/
abbrev RemoveOutcome := Option String

/-- The observable behaviour of one `systools.delete` call. -/
structure DeleteResult where
  /-- Whether the returned promise resolves (as opposed to rejecting). -/
  resolved : Bool
  /-- Whether an error message was printed. -/
  loggedError : Bool
deriving DecidableEq, Repr

/-- `systools.delete`: resolve silently on success and on `ENOENT`; log and
still resolve on any other removal error; never reject. -/
def systoolsDelete (outcome : RemoveOutcome) : DeleteResult :=
  match outcome with
  | none => { resolved := true, loggedError := false }
  | some code =>
    if code = "ENOENT" then { resolved := true, loggedError := false }
    else { resolved := true, loggedError := true }

/-! ## Request sorting (`sortDependenciesByRequestCount`) -/

/-- `sortDependenciesByRequestCount`, `interfaces.ts` variant: stable sort by
the comparator `d2.requestedBy.length - d1.requestedBy.length`, i.e.
descending requester count.  JavaScript's stable comparison sort is modelled
by Mathlib's stable insertion sort. -/
def sortDependenciesByRequestCount (requestedDependencyArray : List DependencyRequestInfo) :
    List DependencyRequestInfo :=
  List.insertionSort
    (fun d1 d2 => d2.requestedBy.length ≤ d1.requestedBy.length)
    requestedDependencyArray

/-- `sortDependenciesByRequestCount`, `minstall.ts` variant: stable sort by
the comparator `d1.requestedBy.length - d2.requestedBy.length`, i.e.
ascending requester count. -/
def sortDependenciesByRequestCountMinstall (requestedDependencyArray : List DependencyRequestInfo) :
    List DependencyRequestInfo :=
  List.insertionSort
    (fun d1 d2 => d1.requestedBy.length ≤ d2.requestedBy.length)
    requestedDependencyArray

/-- Does a string contain the path separator character? -/
def containsSeparator (s : String) : Bool :=
  s.data.contains '/'

/-- The number of entries with a given identifier planned at a given target
folder. -/
def identCount (plan : DependencyTargetFolder) (p : ModulePath) (i : String) : Nat :=
  ((objLookup plan p).getD []).countP (fun r => decide (r.identifier = i))

/-- Two ranges are semantically disjoint: no version satisfies both. -/
def SatDisjoint (S : SemverOps) (r1 r2 : String) : Prop :=
  ∀ w, ¬(S.satisfies w r1 = true ∧ S.satisfies w r2 = true)

/-! ## Concrete instances used in counterexamples and witnesses -/

/-- A trivial instantiation of the external semver primitives: nothing is a
valid range, nothing satisfies anything, nothing intersects, no glob
matches. -/
def semverTrivial : SemverOps where
  validRange := fun _ => false
  satisfies := fun _ _ => false
  intersect := fun _ _ => none
  minimatch := fun _ _ => false

/-- A small concrete instantiation of the external semver primitives where
`"^1.0.0"` is the only valid range and version `"1.2.3"` satisfies it. -/
def semverCaret : SemverOps where
  validRange := fun r => decide (r = "^1.0.0")
  satisfies := fun v r => decide (v = "1.2.3" ∧ r = "^1.0.0")
  intersect := fun _ _ => none
  minimatch := fun _ _ => false

/-- A hoistable request for `lodash@^1.0.0` made by one module. -/
def lodashRequest : DependencyRequestInfo where
  name := "lodash"
  versionRange := "^1.0.0"
  identifier := "lodash@\"^1.0.0\""
  requestedBy := [["modules", "moduleA"]]

/-- An installed `lodash` artifact sitting directly in the project root's
`node_modules`, with a version that satisfies `lodashRequest`. -/
def lodashInstalled : ModuleInfo where
  name := "lodash"
  version := "1.2.3"
  location := ["node_modules"]
  fullModulePath := ["node_modules", "lodash"]
  folderName := ["lodash"]
  dependencies := []
  bin := []

/-- A hoistable request for `foo@^1.0.0` made by a nested module. -/
def fooHoistable : DependencyRequestInfo where
  name := "foo"
  versionRange := "^1.0.0"
  identifier := "foo@\"^1.0.0\""
  requestedBy := [["modules", "moduleB"]]

/-- A non-semver request for `foo` made by the root project itself. -/
def fooNonSemver : DependencyRequestInfo where
  name := "foo"
  versionRange := "github:org/repo"
  identifier := "foo@\"github:org/repo\""
  requestedBy := [[]]

/-- A concrete instantiation of the semver primitives where `"^1.0.0"` and
`"^1.2.0"` intersect at `"^1.2.0"`. -/
def semverInter : SemverOps where
  validRange := fun _ => true
  satisfies := fun v r => decide (v = r)
  intersect := fun a b => if a = "^1.0.0" ∧ b = "^1.2.0" then some "^1.2.0" else none
  minimatch := fun _ _ => false

/-- A local module requesting `left-pad@^1.0.0`. -/
def moduleA : ModuleInfo where
  name := "module-a"
  version := "1.0.0"
  location := ["modules"]
  fullModulePath := ["modules", "module-a"]
  folderName := ["module-a"]
  dependencies := [("left-pad", "^1.0.0")]
  bin := []

/-- A local module requesting `left-pad@git:x` (a non-semver range). -/
def moduleB : ModuleInfo where
  name := "module-b"
  version := "1.0.0"
  location := ["modules"]
  fullModulePath := ["modules", "module-b"]
  folderName := ["module-b"]
  dependencies := [("left-pad", "git:x")]
  bin := []

/-- An installed `left-pad` artifact with a satisfying version. -/
def leftPadInstalled : ModuleInfo where
  name := "left-pad"
  version := "1.2.3"
  location := ["node_modules"]
  fullModulePath := ["node_modules", "left-pad"]
  folderName := ["left-pad"]
  dependencies := []
  bin := []

/-- A `left-pad` artifact installed directly in `module-a`'s own
`node_modules`. -/
def leftPadDirect : ModuleInfo where
  name := "left-pad"
  version := "9.9.9"
  location := ["modules", "module-a", "node_modules"]
  fullModulePath := ["modules", "module-a", "node_modules", "left-pad"]
  folderName := ["left-pad"]
  dependencies := []
  bin := []

/-- A request with a single requester. -/
def reqOnce : DependencyRequestInfo where
  name := "a"
  versionRange := "^1.0.0"
  identifier := "a@\"^1.0.0\""
  requestedBy := [["modules", "m1"]]

/-- A request with two requesters. -/
def reqTwice : DependencyRequestInfo where
  name := "b"
  versionRange := "^2.0.0"
  identifier := "b@\"^2.0.0\""
  requestedBy := [["modules", "m1"], ["modules", "m2"]]

/-! ## Lemmas about the JavaScript object operations -/

section ObjectLemmas

variable {α : Type} {β : Type} {γ : Type} [DecidableEq α]

theorem objLookup_objSet_self (m : List (α × β)) (a : α) (b : β) :
    objLookup (objSet m a b) a = some b := by
  induction m with
  | nil => simp [objSet, objLookup]
  | cons p rest ih =>
    by_cases hp : p.1 = a
    · simp [objSet, objLookup, hp]
    · simp only [objSet, if_neg hp, objLookup, if_neg hp]
      exact ih

theorem objLookup_objSet_ne (m : List (α × β)) (a : α) (b : β) (x : α) (h : x ≠ a) :
    objLookup (objSet m a b) x = objLookup m x := by
  induction m with
  | nil => simp [objSet, objLookup, Ne.symm h]
  | cons p rest ih =>
    by_cases hp : p.1 = a
    · have hpx : p.1 ≠ x := by rw [hp]; exact fun hx => h hx.symm
      simp [objSet, objLookup, hp, hpx, Ne.symm h]
    · simp only [objSet, if_neg hp, objLookup]
      by_cases hx : p.1 = x
      · rw [if_pos hx, if_pos hx]
      · rw [if_neg hx, if_neg hx]
        exact ih

theorem objLookup_objDelete_self (m : List (α × β)) (a : α) :
    objLookup (objDelete m a) a = none := by
  induction m with
  | nil => simp [objDelete, objLookup]
  | cons p rest ih =>
    by_cases hp : p.1 = a
    · simpa [objDelete, hp] using ih
    · simpa [objDelete, objLookup, hp] using ih

theorem objLookup_objDelete_ne (m : List (α × β)) (a : α) (x : α) (h : x ≠ a) :
    objLookup (objDelete m a) x = objLookup m x := by
  induction m with
  | nil => simp [objDelete]
  | cons p rest ih =>
    by_cases hp : p.1 = a
    · rw [show objDelete (p :: rest) a = objDelete rest a by simp [objDelete, hp]]
      rw [ih]
      have : p.1 ≠ x := by rw [hp]; exact fun hx => h hx.symm
      simp [objLookup, this]
    · rw [show objDelete (p :: rest) a = p :: objDelete rest a by simp [objDelete, hp]]
      by_cases hx : p.1 = x
      · simp [objLookup, hx]
      · simp only [objLookup, if_neg hx]
        exact ih

theorem objLookup_objPush_self (m : List (α × List γ)) (a : α) (x : γ) :
    objLookup (objPush m a x) a = some (((objLookup m a).getD []) ++ [x]) :=
  objLookup_objSet_self m a _

theorem objLookup_objPush_ne (m : List (α × List γ)) (a : α) (x : γ) (k : α) (h : k ≠ a) :
    objLookup (objPush m a x) k = objLookup m k :=
  objLookup_objSet_ne m a _ k h

theorem objLookup_mem (m : List (α × β)) (a : α) (v : β) (h : objLookup m a = some v) :
    (a, v) ∈ m := by
  induction m with
  | nil => simp [objLookup] at h
  | cons p rest ih =>
    by_cases hp : p.1 = a
    · simp only [objLookup, if_pos hp] at h
      cases p with
      | mk k w =>
        simp only [Option.some.injEq] at h
        simp only [List.mem_cons]
        left
        simp only at hp
        rw [hp, h]
    · simp only [objLookup, if_neg hp] at h
      exact List.mem_cons_of_mem _ (ih h)

theorem objLookup_eq_none_iff (m : List (α × β)) (a : α) :
    objLookup m a = none ↔ a ∉ objKeys m := by
  induction m with
  | nil => simp [objLookup, objKeys]
  | cons p rest ih =>
    by_cases hp : p.1 = a
    · simp [objLookup, objKeys, hp]
    · simp [objLookup, objKeys, hp, ih, Ne.symm hp]

theorem mem_objKeys_objSet (m : List (α × β)) (a : α) (b : β) (k : α)
    (h : k ∈ objKeys (objSet m a b)) : k ∈ objKeys m ∨ k = a := by
  induction m with
  | nil => simp [objSet, objKeys] at h; right; exact h
  | cons p rest ih =>
    by_cases hp : p.1 = a
    · simp only [objSet, if_pos hp, objKeys, List.map_cons, List.mem_cons] at h
      rcases h with h | h
      · right; exact h
      · left
        simp only [objKeys, List.map_cons, List.mem_cons]
        right
        exact h
    · simp only [objSet, if_neg hp, objKeys, List.map_cons, List.mem_cons] at h
      rcases h with h | h
      · left
        simp only [objKeys, List.map_cons, List.mem_cons]
        left; exact h
      · rcases ih h with h' | h'
        · left
          simp only [objKeys, List.map_cons, List.mem_cons]
          right
          exact h'
        · right; exact h'

theorem mem_objKeys_objDelete (m : List (α × β)) (a : α) (k : α)
    (h : k ∈ objKeys (objDelete m a)) : k ∈ objKeys m ∧ k ≠ a := by
  simp only [objKeys, objDelete, List.mem_map] at h
  obtain ⟨p, hp, hk⟩ := h
  rw [List.mem_filter] at hp
  refine ⟨List.mem_map.2 ⟨p, hp.1, hk⟩, ?_⟩
  subst hk
  simpa using hp.2

theorem mem_objKeys_objPush (m : List (α × List γ)) (a : α) (x : γ) (k : α)
    (h : k ∈ objKeys (objPush m a x)) : k ∈ objKeys m ∨ k = a :=
  mem_objKeys_objSet m a _ k h

theorem objLookup_append_single_ne (m : List (α × β)) (a : α) (b : β) (k : α) (h : k ≠ a) :
    objLookup (m ++ [(a, b)]) k = objLookup m k := by
  induction m with
  | nil => simp [objLookup, Ne.symm h]
  | cons p rest ih =>
    by_cases hp : p.1 = k
    · simp [objLookup, hp]
    · simp only [List.cons_append, objLookup, if_neg hp]
      exact ih

theorem objLookup_append_single_self (m : List (α × β)) (a : α) (b : β)
    (h : objLookup m a = none) : objLookup (m ++ [(a, b)]) a = some b := by
  induction m with
  | nil => simp [objLookup]
  | cons p rest ih =>
    by_cases hp : p.1 = a
    · simp [objLookup, hp] at h
    · simp only [List.cons_append, objLookup, if_neg hp] at h ⊢
      exact ih h

end ObjectLemmas

/-! ## C10: systools.delete never rejects -/

/-- C10: the filesystem delete operation always resolves and never rejects:
a missing path (`ENOENT`) succeeds silently, and any other removal error is
logged while the promise still resolves, so no caller of `systoolsDelete`
can observe a failure. -/
theorem systoolsDelete_always_resolves :
    ∀ outcome : RemoveOutcome,
      (systoolsDelete outcome).resolved = true ∧
      ((systoolsDelete outcome).loggedError = true ↔
        ∃ code, outcome = some code ∧ code ≠ "ENOENT") := by
  intro outcome
  cases outcome with
  | none => simp [systoolsDelete]
  | some code =>
    by_cases h : code = "ENOENT" <;> simp [systoolsDelete, h]

/-! ## C8: bin entry keys and path separators -/

/-- C8 counterexample: a scoped package name together with a string-shaped
bin field yields a bin entry keyed by the full scoped name, which contains
the path separator. -/
theorem binEntries_scoped_string_counterexample :
    moduleInfoBinEntries "@scope/pkg" (BinField.single "cli.js")
        = [("@scope/pkg", "cli.js")] ∧
    containsSeparator "@scope/pkg" = true := by
  constructor
  · rfl
  · decide

/-- C8 amended: when the package name contains no path separator and every
key of a mapping-shaped bin field contains no path separator, no key of the
normalized bin entries contains a path separator. -/
theorem moduleInfoBinEntries_no_separator (name : String) (bin : BinField)
    (h1 : containsSeparator name = false)
    (h2 : ∀ m, bin = BinField.mapping m → ∀ p ∈ m, containsSeparator p.1 = false) :
    ∀ p ∈ moduleInfoBinEntries name bin, containsSeparator p.1 = false := by
  cases bin with
  | absent => intro p hp; simp [moduleInfoBinEntries] at hp
  | single s =>
    intro p hp
    simp only [moduleInfoBinEntries, List.mem_singleton] at hp
    rw [hp]
    exact h1
  | mapping m =>
    intro p hp
    exact h2 m rfl p hp

/-- C8 witness: the amended statement applied to an unscoped name with a
string-shaped bin field. -/
theorem moduleInfoBinEntries_no_separator_witness :
    containsSeparator "mypkg" = false :=
  moduleInfoBinEntries_no_separator "mypkg" (BinField.single "cli.js")
    (by decide) (fun m h => by cases h) ("mypkg", "cli.js")
    (by simp [moduleInfoBinEntries])

/-! ## C5: sorting by requester count -/

/-- C5: the `minstall.ts` variant of `sortDependenciesByRequestCount` sorts
by ascending requester count, so the less-requested entry comes first,
contradicting the claimed descending order; the `interfaces.ts` variant
sorts descending as claimed. -/
theorem sortDependenciesByRequestCount_variants_divergence :
    sortDependenciesByRequestCountMinstall [reqOnce, reqTwice] = [reqOnce, reqTwice] ∧
    (sortDependenciesByRequestCountMinstall [reqOnce, reqTwice]).map
        (fun d => d.requestedBy.length) = [1, 2] ∧
    sortDependenciesByRequestCount [reqOnce, reqTwice] = [reqTwice, reqOnce] := by
  refine ⟨?_, ?_, ?_⟩ <;> rfl

/-! ## C2 counterexample: the installed-artifact check ignores versions -/

/-- C2 counterexample: the only installed artifact with the request's name
in the project root's `node_modules` has a version that satisfies the
request's range, so the claimed check (b) holds at the root candidate (as do
checks (a) and (c), the plan being empty), yet the planner refuses the root
and places the request one level deeper: the code's check compares only name
and location, never the version. -/
theorem placement_ignores_installed_version_counterexample :
    semverCaret.satisfies lodashInstalled.version lodashRequest.versionRange = true ∧
    lodashInstalled.name = lodashRequest.name ∧
    lodashInstalled.location = ([] : ModulePath) ++ ["node_modules"] ∧
    determineDependencyTargetFolder semverCaret [lodashRequest] [lodashInstalled] []
        = [(["modules"], [lodashRequest])] ∧
    objLookup (determineDependencyTargetFolder semverCaret [lodashRequest]
        [lodashInstalled] []) ([] : ModulePath) = none := by
  refine ⟨by decide, rfl, rfl, rfl, rfl⟩

/-! ## C6 counterexample: duplicate names in one target folder -/

/-- C6 counterexample: a hoistable request for `foo` is placed at the
project root, after which a non-hoistable request for the same name made by
the root project is appended to the same folder without any conflict check,
so one target folder holds two entries with the same name. -/
theorem plan_duplicate_name_counterexample :
    determineDependencyTargetFolder semverCaret [fooHoistable, fooNonSemver] [] []
        = [(([] : ModulePath), [fooHoistable, fooNonSemver])] ∧
    fooHoistable.name = fooNonSemver.name ∧
    fooHoistable ≠ fooNonSemver := by
  refine ⟨rfl, rfl, by decide⟩

/-! ## The placement scan as a first-fit search over path prefixes -/

theorem candidatePaths_map_cons (s : String) (cur : ModulePath) (rest : List String) :
    (candidatePaths rest).map (fun p => (cur ++ [s]) ++ p)
      = (candidatePaths rest).map (fun p => cur ++ s :: p) := by
  apply List.map_congr_left
  intro p _
  simp [List.append_assoc]

theorem placementScan_eq_find (plan : DependencyTargetFolder) (installed : List ModuleInfo)
    (req : DependencyRequestInfo) :
    ∀ segs : List String, (∀ s ∈ segs, s ≠ "") → ∀ cur : ModulePath,
      _placementScan plan installed req cur (segs ++ [""]) =
        (match ((candidatePaths segs).map (fun p => cur ++ p)).find?
            (_installModuleHere plan installed req) with
        | some P => objPush plan P req
        | none => plan) := by
  intro segs
  induction segs with
  | nil =>
    intro _ cur
    simp only [candidatePaths, List.map_cons, List.map_nil, List.append_nil, List.nil_append]
    by_cases h : _installModuleHere plan installed req cur
    · simp only [_placementScan, if_pos h]
      rw [List.find?_cons_of_pos _ h]
    · simp only [_placementScan, if_neg h]
      rw [List.find?_cons_of_neg _ (by simpa using h)]
      simp [_placementScan, pathJoin]
  | cons s rest ih =>
    intro hne cur
    have hs : s ≠ "" := hne s (by simp)
    have hrest : ∀ x ∈ rest, x ≠ "" := fun x hx => hne x (by simp [hx])
    simp only [List.cons_append, _placementScan]
    by_cases h : _installModuleHere plan installed req cur
    · rw [if_pos h]
      simp only [candidatePaths, List.map_cons, List.append_nil]
      rw [List.find?_cons_of_pos _ h]
    · rw [if_neg h]
      have hpj : pathJoin cur s = cur ++ [s] := by simp [pathJoin, hs]
      simp only [List.append_eq]
      rw [hpj, ih hrest (cur ++ [s])]
      simp only [candidatePaths, List.map_cons, List.map_map, List.append_nil]
      rw [List.find?_cons_of_neg _ (by simpa using h)]
      rw [show ((candidatePaths rest).map ((fun p => cur ++ p) ∘ (fun p => s :: p)))
            = (candidatePaths rest).map (fun p => cur ++ s :: p) from rfl]
      rw [← candidatePaths_map_cons s cur rest]

/-- The planner step of a hoistable request as a first-fit search over the
candidate path list. -/
theorem determineStep_eq_find (S : SemverOps) (noHoistList : List DependencyInfo)
    (installed : List ModuleInfo) (plan : DependencyTargetFolder)
    (req : DependencyRequestInfo)
    (hvalid : S.validRange req.versionRange = true)
    (hnh : _findMatchingNoHoistEntry S req noHoistList = none) :
    determineStep S noHoistList installed plan req =
      (match (candidatePaths ((req.requestedBy.headD []).filter fun s => 0 < s.length)).find?
          (_installModuleHere plan installed req) with
      | some P => objPush plan P req
      | none => plan) := by
  unfold determineStep _dontHoistInvalidSemverRequests _dontHoistExcludedDependencies
  rw [if_pos hvalid, hnh]
  simp only [if_neg (by simp : ¬((false, plan).1 = true)), if_neg (by simp : ¬((false, plan).1 = true))]
  have hne : ∀ s ∈ (req.requestedBy.headD []).filter (fun s => 0 < s.length), s ≠ "" := by
    intro s hsmem
    have := (List.mem_filter.1 hsmem).2
    intro hemp
    subst hemp
    simp at this
  have := placementScan_eq_find plan installed req
    ((req.requestedBy.headD []).filter fun s => 0 < s.length) hne []
  simpa using this

/-- C2 amended: for a hoistable request (valid semver range, no matching
no-hoist rule), the planner step is exactly a first-fit search over the
candidate paths: all path prefixes of the first requester's path, from the
project root downward, are tried in order; the request is appended to the
plan at the first candidate where `_installModuleHere` holds (no entry in
the plan shares its identifier, no installed artifact of the same name sits
directly in the candidate's `node_modules` regardless of its version, and no
entry at the candidate has the same name with a different range); if no
candidate passes, the plan is unchanged. -/
theorem determineStep_firstFit (S : SemverOps) (noHoistList : List DependencyInfo)
    (installed : List ModuleInfo) (plan : DependencyTargetFolder)
    (req : DependencyRequestInfo)
    (hvalid : S.validRange req.versionRange = true)
    (hnh : _findMatchingNoHoistEntry S req noHoistList = none) :
    determineStep S noHoistList installed plan req =
      (match (candidatePaths ((req.requestedBy.headD []).filter fun s => 0 < s.length)).find?
          (_installModuleHere plan installed req) with
      | some P => objPush plan P req
      | none => plan) :=
  determineStep_eq_find S noHoistList installed plan req hvalid hnh

/-- C2 amended witness: the first-fit characterization applied to a concrete
hoistable request with no conflicts, which lands at the project root. -/
theorem determineStep_firstFit_witness :
    determineStep semverCaret [] [] [] lodashRequest
      = [(([] : ModulePath), [lodashRequest])] := by
  rw [determineStep_firstFit semverCaret [] [] [] lodashRequest rfl rfl]
  rfl

/-! ## C1: non-hoistable requests are placed once per requester -/

theorem identCount_objPush (plan : DependencyTargetFolder) (q : ModulePath)
    (r : DependencyRequestInfo) (p : ModulePath) (i : String) :
    identCount (objPush plan q r) p i
      = identCount plan p i + (if p = q ∧ r.identifier = i then 1 else 0) := by
  by_cases hpq : p = q
  · subst hpq
    rw [identCount, objLookup_objPush_self]
    simp only [Option.getD_some, List.countP_append]
    rw [identCount]
    by_cases hid : r.identifier = i
    · simp [List.countP_cons, hid]
    · simp [List.countP_cons, hid]
  · rw [identCount, objLookup_objPush_ne plan q _ p hpq, ← identCount]
    simp [hpq]

theorem countP_eq_ite_of_nodup {α : Type} [DecidableEq α] (l : List α) (p : α)
    (hl : l.Nodup) :
    l.countP (fun q => decide (q = p)) = if p ∈ l then 1 else 0 := by
  induction l with
  | nil => simp
  | cons a rest ih =>
    rw [List.nodup_cons] at hl
    rw [List.countP_cons, ih hl.2]
    by_cases hap : a = p
    · subst hap
      simp [hl.1]
    · have hpa : p ≠ a := fun h => hap h.symm
      by_cases hp : p ∈ rest <;> simp [hap, hpa, hp]

theorem identCount_dontHoist (plan : DependencyTargetFolder) (r : DependencyRequestInfo)
    (p : ModulePath) (i : String) :
    identCount (_dontHoistDependency plan r) p i
      = identCount plan p i
        + (if r.identifier = i then r.requestedBy.countP (fun q => decide (q = p)) else 0) := by
  rw [_dontHoistDependency]
  induction r.requestedBy generalizing plan with
  | nil => simp
  | cons t rest ih =>
    simp only [List.foldl_cons]
    rw [ih (objPush plan t r), identCount_objPush, List.countP_cons]
    by_cases hid : r.identifier = i
    · by_cases hpt : p = t
      · subst hpt
        simp [hid]
        try omega
      · have hneq : ¬(t = p) := fun h => hpt h.symm
        simp [hid, hpt, hneq]
        try omega
    · simp [hid]

theorem placementScan_shape (plan : DependencyTargetFolder) (installed : List ModuleInfo)
    (req : DependencyRequestInfo) :
    ∀ (elems : List String) (cur : ModulePath),
      _placementScan plan installed req cur elems = plan ∨
      ∃ P, _installModuleHere plan installed req P = true ∧
        _placementScan plan installed req cur elems = objPush plan P req := by
  intro elems
  induction elems with
  | nil => intro cur; left; rfl
  | cons e rest ih =>
    intro cur
    by_cases h : _installModuleHere plan installed req cur
    · right
      exact ⟨cur, h, by simp [_placementScan, h]⟩
    · have : _placementScan plan installed req cur (e :: rest)
          = _placementScan plan installed req (pathJoin cur e) rest := by
        simp [_placementScan, h]
      rw [this]
      exact ih (pathJoin cur e)

theorem determineStep_shape (S : SemverOps) (noHoistList : List DependencyInfo)
    (installed : List ModuleInfo) (plan : DependencyTargetFolder)
    (r : DependencyRequestInfo) :
    determineStep S noHoistList installed plan r = _dontHoistDependency plan r ∨
    determineStep S noHoistList installed plan r = plan ∨
    ∃ P, _installModuleHere plan installed r P = true ∧
      determineStep S noHoistList installed plan r = objPush plan P r := by
  unfold determineStep _dontHoistInvalidSemverRequests _dontHoistExcludedDependencies
  by_cases hv : S.validRange r.versionRange
  · rw [if_pos hv]
    simp only
    cases hm : _findMatchingNoHoistEntry S r noHoistList with
    | some e => left; simp
    | none =>
      simp only
      right
      have := placementScan_shape plan installed r
        (((r.requestedBy.headD []).filter fun s => 0 < s.length) ++ [""]) []
      rcases this with h | ⟨P, hP, h⟩
      · left; simpa using h
      · right; exact ⟨P, hP, by simpa using h⟩
  · rw [if_neg hv]
    left
    simp

theorem identCount_determineStep_ne (S : SemverOps) (noHoistList : List DependencyInfo)
    (installed : List ModuleInfo) (plan : DependencyTargetFolder)
    (r : DependencyRequestInfo) (p : ModulePath) (i : String)
    (h : r.identifier ≠ i) :
    identCount (determineStep S noHoistList installed plan r) p i = identCount plan p i := by
  rcases determineStep_shape S noHoistList installed plan r with hs | hs | ⟨P, _, hs⟩
  · rw [hs, identCount_dontHoist]
    simp [h]
  · rw [hs]
  · rw [hs, identCount_objPush]
    simp [h]

theorem identCount_foldl_ne (S : SemverOps) (noHoistList : List DependencyInfo)
    (installed : List ModuleInfo) (l : List DependencyRequestInfo) (i : String)
    (h : ∀ r ∈ l, r.identifier ≠ i) :
    ∀ (plan : DependencyTargetFolder) (p : ModulePath),
      identCount (l.foldl (determineStep S noHoistList installed) plan) p i
        = identCount plan p i := by
  induction l with
  | nil => intro plan p; rfl
  | cons r rest ih =>
    intro plan p
    simp only [List.foldl_cons]
    rw [ih (fun x hx => h x (by simp [hx])) _ p,
      identCount_determineStep_ne S noHoistList installed plan r p i (h r (by simp))]

theorem determineStep_nonhoistable (S : SemverOps) (noHoistList : List DependencyInfo)
    (installed : List ModuleInfo) (plan : DependencyTargetFolder)
    (req : DependencyRequestInfo)
    (h : S.validRange req.versionRange = false
        ∨ (_findMatchingNoHoistEntry S req noHoistList).isSome = true) :
    determineStep S noHoistList installed plan req = _dontHoistDependency plan req := by
  unfold determineStep _dontHoistInvalidSemverRequests _dontHoistExcludedDependencies
  by_cases hv : S.validRange req.versionRange
  · rw [if_pos hv]
    rcases h with h | h
    · rw [hv] at h; cases h
    · obtain ⟨e, he⟩ := Option.isSome_iff_exists.1 h
      rw [he]
      simp
  · rw [if_neg hv]
    simp

/-- C1: in the hoist planner, a request whose range is not valid semver or
which matches a no-hoist rule is appended to the plan entry of every path in
its requester list, and its identifier is planned nowhere else: the final
plan carries exactly one entry with its identifier at each requester path
and none at any other path. -/
theorem determineDependencyTargetFolder_nonhoistable_placements
    (S : SemverOps) (reqs : List DependencyRequestInfo) (installed : List ModuleInfo)
    (noHoistList : List DependencyInfo) (req : DependencyRequestInfo)
    (hmem : req ∈ reqs)
    (hids : (reqs.map (fun r => r.identifier)).Nodup)
    (hnh : S.validRange req.versionRange = false
        ∨ (_findMatchingNoHoistEntry S req noHoistList).isSome = true)
    (hreq : req.requestedBy.Nodup) :
    ∀ p : ModulePath,
      identCount (determineDependencyTargetFolder S reqs installed noHoistList) p req.identifier
        = if p ∈ req.requestedBy then 1 else 0 := by
  intro p
  obtain ⟨l1, l2, rfl⟩ := List.append_of_mem hmem
  have hmap : ((l1 ++ req :: l2).map (fun r => r.identifier))
      = l1.map (fun r => r.identifier) ++ req.identifier :: l2.map (fun r => r.identifier) := by
    simp
  rw [hmap] at hids
  have hdisj := List.disjoint_of_nodup_append hids
  have h1 : ∀ r ∈ l1, r.identifier ≠ req.identifier := by
    intro r hr
    intro hcontra
    exact hdisj (List.mem_map_of_mem _ hr) (by simp [hcontra])
  have h2 : ∀ r ∈ l2, r.identifier ≠ req.identifier := by
    have hnd2 := hids.of_append_right
    rw [List.nodup_cons] at hnd2
    intro r hr hcontra
    exact hnd2.1 (hcontra ▸ List.mem_map_of_mem _ hr)
  rw [determineDependencyTargetFolder, List.foldl_append, List.foldl_cons]
  rw [identCount_foldl_ne S noHoistList installed l2 req.identifier h2]
  rw [determineStep_nonhoistable S noHoistList installed _ req hnh]
  rw [identCount_dontHoist]
  rw [identCount_foldl_ne S noHoistList installed l1 req.identifier h1]
  have hz : identCount [] p req.identifier = 0 := rfl
  rw [hz, if_pos rfl]
  rw [countP_eq_ite_of_nodup req.requestedBy p hreq]
  by_cases hp : p ∈ req.requestedBy
  · rw [if_pos hp, if_pos hp]
  · rw [if_neg hp, if_neg hp]

/-- C1 witness: the non-hoistable request of the root project is planned
exactly once at the root. -/
theorem determineDependencyTargetFolder_nonhoistable_placements_witness :
    identCount (determineDependencyTargetFolder semverCaret [fooNonSemver] [] [])
      ([] : ModulePath) fooNonSemver.identifier = 1 := by
  have h := determineDependencyTargetFolder_nonhoistable_placements semverCaret
    [fooNonSemver] [] [] fooNonSemver (by decide) (by decide) (Or.inl rfl) (by decide) []
  simpa using h

/-! ## C6 amended: per-folder name uniqueness for hoistable-only inputs -/

theorem determineStep_hoistable_shape (S : SemverOps) (noHoistList : List DependencyInfo)
    (installed : List ModuleInfo) (plan : DependencyTargetFolder)
    (r : DependencyRequestInfo)
    (hv : S.validRange r.versionRange = true)
    (hn : _findMatchingNoHoistEntry S r noHoistList = none) :
    determineStep S noHoistList installed plan r = plan ∨
    ∃ P, _installModuleHere plan installed r P = true ∧
      determineStep S noHoistList installed plan r = objPush plan P r := by
  rw [determineStep_eq_find S noHoistList installed plan r hv hn]
  cases hfind : (candidatePaths ((r.requestedBy.headD []).filter fun s => 0 < s.length)).find?
      (_installModuleHere plan installed r) with
  | none => left; rfl
  | some P => right; exact ⟨P, List.find?_some hfind, rfl⟩

theorem installModuleHere_split (plan : DependencyTargetFolder) (installed : List ModuleInfo)
    (r : DependencyRequestInfo) (P : ModulePath)
    (h : _installModuleHere plan installed r P = true) :
    _handleIfDependencyIsAlreadyOnInstallList r plan = false ∧
    _handleIfConflictingDependencyIsAlreadyInstalled P r installed = false ∧
    _handleIfConflictingDependencyWillBeInstalled P r plan = false := by
  rw [_installModuleHere] at h
  simp only [Bool.not_eq_true', Bool.or_eq_false_iff] at h
  exact ⟨h.1.1, h.1.2, h.2⟩

theorem planNamesInv_foldl (S : SemverOps) (noHoistList : List DependencyInfo)
    (installed : List ModuleInfo) (reqs : List DependencyRequestInfo)
    (hval : ∀ r ∈ reqs, S.validRange r.versionRange = true)
    (hnh : ∀ r ∈ reqs, _findMatchingNoHoistEntry S r noHoistList = none)
    (hid : ∀ r1 ∈ reqs, ∀ r2 ∈ reqs, r1.name = r2.name → r1.versionRange = r2.versionRange →
        r1.identifier = r2.identifier) :
    ∀ l : List DependencyRequestInfo, (∀ r ∈ l, r ∈ reqs) →
    ∀ plan : DependencyTargetFolder,
      (∀ P ls, objLookup plan P = some ls →
        (∀ r ∈ ls, r ∈ reqs) ∧ (ls.map (fun r => r.name)).Nodup) →
      ∀ P ls, objLookup (l.foldl (determineStep S noHoistList installed) plan) P = some ls →
        (∀ r ∈ ls, r ∈ reqs) ∧ (ls.map (fun r => r.name)).Nodup := by
  intro l
  induction l with
  | nil => intro _ plan hplan P ls h; exact hplan P ls h
  | cons r rest ih =>
    intro hsub plan hplan
    simp only [List.foldl_cons]
    apply ih (fun x hx => hsub x (List.mem_cons_of_mem _ hx))
    have hrmem : r ∈ reqs := hsub r (by simp)
    rcases determineStep_hoistable_shape S noHoistList installed plan r
        (hval r hrmem) (hnh r hrmem) with hs | ⟨P, hok, hs⟩
    · rw [hs]; exact hplan
    · rw [hs]
      intro Q ls hQ
      by_cases hQP : Q = P
      · subst hQP
        rw [objLookup_objPush_self] at hQ
        obtain ⟨hA, _, hC⟩ := installModuleHere_split plan installed r Q hok
        cases hlk : objLookup plan Q with
        | none =>
          rw [hlk] at hQ
          simp only [Option.getD_none, List.nil_append, Option.some.injEq] at hQ
          subst hQ
          constructor
          · intro x hx
            rw [List.mem_singleton] at hx
            subst hx
            exact hrmem
          · simp
        | some old =>
          rw [hlk] at hQ
          simp only [Option.getD_some, Option.some.injEq] at hQ
          subst hQ
          obtain ⟨hold1, hold2⟩ := hplan Q old hlk
          constructor
          · intro x hx
            rcases List.mem_append.1 hx with hx | hx
            · exact hold1 x hx
            · rw [List.mem_singleton] at hx
              subst hx
              exact hrmem
          · rw [List.map_append]
            apply List.Nodup.append hold2 (by simp)
            intro a ha hb
            simp only [List.map_cons, List.map_nil, List.mem_singleton] at hb
            subst hb
            obtain ⟨e, he, hename⟩ := List.mem_map.1 ha
            -- e is an already planned entry at Q with the same name as r
            have hrange : e.versionRange = r.versionRange := by
              rw [_handleIfConflictingDependencyWillBeInstalled, hlk] at hC
              have h1 := List.any_eq_false.1 hC e he
              have h2 : (decide (e.name = r.name)
                  && decide (e.versionRange ≠ r.versionRange)) = false :=
                Bool.eq_false_iff.2 h1
              rw [Bool.and_eq_false_iff] at h2
              rcases h2 with h3 | h3
              · exact absurd hename (by simpa using h3)
              · simpa using h3
            have hident : e.identifier = r.identifier :=
              hid e (hold1 e he) r hrmem hename hrange
            have hmemplan : (Q, old) ∈ plan := objLookup_mem plan Q old hlk
            rw [_handleIfDependencyIsAlreadyOnInstallList] at hA
            have h3 := List.any_eq_false.1 hA (Q, old) hmemplan
            have h4 : ((Q, old).2.any fun m => decide (m.identifier = r.identifier)) = false :=
              Bool.eq_false_iff.2 h3
            have h5 := List.any_eq_false.1 h4 e he
            have h6 : (decide (e.identifier = r.identifier)) = false := Bool.eq_false_iff.2 h5
            simp only [decide_eq_false_iff_not] at h6
            exact h6 hident
      · rw [objLookup_objPush_ne plan P _ Q hQP] at hQ
        exact hplan Q ls hQ

/-- C6 amended: when every request in the planner's input is hoistable
(valid semver range, no matching no-hoist rule) and identifiers agree with
`(name, versionRange)` pairs, no two entries planned at one target folder
share a dependency name.  (The original claim, which included non-hoistable
placements, is refuted by `plan_duplicate_name_counterexample`.) -/
theorem determineDependencyTargetFolder_unique_names_per_folder
    (S : SemverOps) (reqs : List DependencyRequestInfo) (installed : List ModuleInfo)
    (noHoistList : List DependencyInfo)
    (hval : ∀ r ∈ reqs, S.validRange r.versionRange = true)
    (hnh : ∀ r ∈ reqs, _findMatchingNoHoistEntry S r noHoistList = none)
    (hid : ∀ r1 ∈ reqs, ∀ r2 ∈ reqs, r1.name = r2.name → r1.versionRange = r2.versionRange →
        r1.identifier = r2.identifier) :
    ∀ P ls, objLookup (determineDependencyTargetFolder S reqs installed noHoistList) P = some ls →
      (ls.map (fun r => r.name)).Nodup := by
  intro P ls h
  exact (planNamesInv_foldl S noHoistList installed reqs hval hnh hid reqs
    (fun r hr => hr) [] (fun Q ls' h' => by cases h') P ls h).2

/-- C6 amended witness: a single hoistable request yields a plan whose only
folder holds pairwise distinct names. -/
theorem determineDependencyTargetFolder_unique_names_per_folder_witness :
    (([lodashRequest].map (fun r => r.name)).Nodup) := by
  have h := determineDependencyTargetFolder_unique_names_per_folder semverCaret
    [lodashRequest] [] []
    (by intro r hr; rw [List.mem_singleton] at hr; subst hr; rfl)
    (by intro r hr; rw [List.mem_singleton] at hr; subst hr; rfl)
    (by intro r1 h1 r2 h2 _ _; rw [List.mem_singleton] at h1 h2; subst h1; subst h2; rfl)
    ([] : ModulePath) [lodashRequest] rfl
  exact h

/-! ## C4: the coalescer's insertion algorithm -/

theorem findFirstIntersection_some (S : SemverOps) (range : String) (m : RangeMap)
    (v i : String) (h : _findFirstIntersection S range m = some (v, i)) :
    S.intersect v range = some i ∧
    ∃ m1 lreq m2, m = m1 ++ (v, lreq) :: m2 ∧
      (∀ x ∈ objKeys m1, S.intersect x range = none) := by
  induction m with
  | nil => cases h
  | cons e rest ih =>
    rw [_findFirstIntersection] at h
    cases hint : S.intersect e.1 range with
    | some j =>
      rw [hint] at h
      simp only [Option.some.injEq, Prod.mk.injEq] at h
      obtain ⟨h1, h2⟩ := h
      subst h1
      subst h2
      refine ⟨hint, [], e.2, rest, ?_, ?_⟩
      · simp
      · intro x hx; simp [objKeys] at hx
    | none =>
      rw [hint] at h
      obtain ⟨hi, m1, lreq, m2, heq, hnone⟩ := ih h
      refine ⟨hi, e :: m1, lreq, m2, by rw [heq, List.cons_append], ?_⟩
      intro x hx
      simp only [objKeys, List.map_cons, List.mem_cons] at hx
      rcases hx with hx | hx
      · subst hx; exact hint
      · exact hnone x hx

theorem findFirstIntersection_mem_keys (S : SemverOps) (range : String) (m : RangeMap)
    (v i : String) (h : _findFirstIntersection S range m = some (v, i)) :
    v ∈ objKeys m := by
  obtain ⟨_, m1, lreq, m2, heq, _⟩ := findFirstIntersection_some S range m v i h
  rw [heq]
  simp [objKeys]

theorem findFirstIntersection_none (S : SemverOps) (range : String) (m : RangeMap)
    (h : _findFirstIntersection S range m = none) :
    ∀ x ∈ objKeys m, S.intersect x range = none := by
  induction m with
  | nil => intro x hx; simp [objKeys] at hx
  | cons e rest ih =>
    rw [_findFirstIntersection] at h
    cases hint : S.intersect e.1 range with
    | some j => rw [hint] at h; cases h
    | none =>
      rw [hint] at h
      intro x hx
      simp only [objKeys, List.map_cons, List.mem_cons] at hx
      rcases hx with hx | hx
      · subst hx; exact hint
      · exact ih h x hx

theorem insertRequestedVersion_eq_of_some (S : SemverOps) (m : RangeMap) (range : String)
    (p : ModulePath) (v i : String)
    (h : _findFirstIntersection S range m = some (v, i)) :
    _insertRequestedVersion S m range p =
      objPush (if i = v then m else objDelete (objSet m i ((objLookup m v).getD [])) v) i p := by
  rw [_insertRequestedVersion, h]

theorem insertRequestedVersion_eq_of_none (S : SemverOps) (m : RangeMap) (range : String)
    (p : ModulePath) (h : _findFirstIntersection S range m = none) :
    _insertRequestedVersion S m range p =
      (match objLookup m range with
      | some l => objSet m range (l ++ [p])
      | none => m ++ [(range, [p])]) := by
  rw [_insertRequestedVersion, h]

/-- C4: the coalescer's per-insertion algorithm.  When some stored range
intersects the requested one, the first such range `v` (all earlier keys
failed to intersect) is replaced by the intersection `i`, its requester list
is preserved with the inserting module appended, every other key is
untouched, and the old key disappears when the intersection differs from it.
When no stored range intersects (every intersection attempt returned the
failure value), the module is appended to a textually identical key if one
exists, and otherwise a fresh singleton key is created at the end. -/
theorem insertRequestedVersion_spec (S : SemverOps) (m : RangeMap) (range : String)
    (p : ModulePath) :
    (∀ v i, _findFirstIntersection S range m = some (v, i) →
      S.intersect v range = some i ∧
      (∃ m1 lreq m2, m = m1 ++ (v, lreq) :: m2 ∧
        (∀ x ∈ objKeys m1, S.intersect x range = none)) ∧
      objLookup (_insertRequestedVersion S m range p) i
        = some (((objLookup m v).getD []) ++ [p]) ∧
      (∀ k, k ≠ i → k ≠ v →
        objLookup (_insertRequestedVersion S m range p) k = objLookup m k) ∧
      (i ≠ v → objLookup (_insertRequestedVersion S m range p) v = none)) ∧
    (_findFirstIntersection S range m = none →
      (∀ l, objLookup m range = some l →
        _insertRequestedVersion S m range p = objSet m range (l ++ [p])) ∧
      (objLookup m range = none →
        _insertRequestedVersion S m range p = m ++ [(range, [p])])) := by
  constructor
  · intro v i h
    obtain ⟨hint, hsplit⟩ := findFirstIntersection_some S range m v i h
    refine ⟨hint, hsplit, ?_, ?_, ?_⟩
    · rw [insertRequestedVersion_eq_of_some S m range p v i h]
      by_cases hiv : i = v
      · rw [if_pos hiv]
        rw [objLookup_objPush_self]
        rw [hiv]
      · rw [if_neg hiv]
        rw [objLookup_objPush_self]
        rw [objLookup_objDelete_ne _ v i hiv, objLookup_objSet_self]
        simp
    · intro k hki hkv
      rw [insertRequestedVersion_eq_of_some S m range p v i h]
      by_cases hiv : i = v
      · rw [if_pos hiv]
        exact objLookup_objPush_ne m i _ k hki
      · rw [if_neg hiv]
        rw [objLookup_objPush_ne _ i _ k hki]
        rw [objLookup_objDelete_ne _ v k hkv]
        exact objLookup_objSet_ne m i _ k hki
    · intro hiv
      rw [insertRequestedVersion_eq_of_some S m range p v i h, if_neg hiv]
      have hvi : v ≠ i := fun hc => hiv hc.symm
      rw [objLookup_objPush_ne _ i _ v hvi]
      exact objLookup_objDelete_self _ v
  · intro h
    constructor
    · intro l hl
      rw [insertRequestedVersion_eq_of_none S m range p h, hl]
    · intro hl
      rw [insertRequestedVersion_eq_of_none S m range p h, hl]

/-- C4 witness: inserting `^1.2.0` into a map holding `^1.0.0` rewrites the
key to the intersection `^1.2.0` and appends the new requester to the
preserved requester list. -/
theorem insertRequestedVersion_spec_witness :
    objLookup (_insertRequestedVersion semverInter [("^1.0.0", [["modules", "module-a"]])]
        "^1.2.0" ["modules", "module-b"]) "^1.2.0"
      = some (((objLookup [("^1.0.0", [["modules", "module-a"]])] "^1.0.0").getD [])
          ++ [["modules", "module-b"]]) :=
  ((insertRequestedVersion_spec semverInter [("^1.0.0", [["modules", "module-a"]])]
      "^1.2.0" ["modules", "module-b"]).1 "^1.0.0" "^1.2.0" rfl).2.2.1

/-! ## C3: coalesced ranges never intersect -/

theorem mem_objSet {α β : Type} [DecidableEq α] (m : List (α × β)) (a : α) (b : β)
    (e : α × β) (h : e ∈ objSet m a b) : e ∈ m ∨ e = (a, b) := by
  induction m with
  | nil => simp [objSet] at h; right; exact h
  | cons q rest ih =>
    by_cases hq : q.1 = a
    · rw [objSet, if_pos hq] at h
      rcases List.mem_cons.1 h with h' | h'
      · right; exact h'
      · left; exact List.mem_cons_of_mem _ h'
    · rw [objSet, if_neg hq] at h
      rcases List.mem_cons.1 h with h' | h'
      · left; exact h' ▸ List.mem_cons_self q rest
      · rcases ih h' with h'' | h''
        · left; exact List.mem_cons_of_mem _ h''
        · right; exact h''

theorem mem_objKeys_of_lookup {α β : Type} [DecidableEq α] (m : List (α × β)) (a : α)
    (v : β) (h : objLookup m a = some v) : a ∈ objKeys m :=
  List.mem_map.2 ⟨(a, v), objLookup_mem m a v h, rfl⟩

theorem satDisjoint_symm {S : SemverOps} {r1 r2 : String} (h : SatDisjoint S r1 r2) :
    SatDisjoint S r2 r1 :=
  fun w hw => h w ⟨hw.2, hw.1⟩

theorem insertRequestedVersion_preserves_disjoint (S : SemverOps)
    (Hsound : ∀ a b i, S.intersect a b = some i →
      ∀ w, S.satisfies w i = (S.satisfies w a && S.satisfies w b))
    (Hnone : ∀ a b, S.intersect a b = none → SatDisjoint S a b)
    (m : RangeMap) (range : String) (p : ModulePath)
    (hm : ∀ r1 ∈ objKeys m, ∀ r2 ∈ objKeys m, r1 ≠ r2 → SatDisjoint S r1 r2) :
    ∀ r1 ∈ objKeys (_insertRequestedVersion S m range p),
      ∀ r2 ∈ objKeys (_insertRequestedVersion S m range p), r1 ≠ r2 →
        SatDisjoint S r1 r2 := by
  cases hff : _findFirstIntersection S range m with
  | none =>
    rw [insertRequestedVersion_eq_of_none S m range p hff]
    cases hl : objLookup m range with
    | some l =>
      intro r1 h1 r2 h2 hne
      have hrm : range ∈ objKeys m := mem_objKeys_of_lookup m range l hl
      have k1 : r1 ∈ objKeys m := by
        rcases mem_objKeys_objSet m range _ r1 h1 with h | h
        · exact h
        · exact h ▸ hrm
      have k2 : r2 ∈ objKeys m := by
        rcases mem_objKeys_objSet m range _ r2 h2 with h | h
        · exact h
        · exact h ▸ hrm
      exact hm r1 k1 r2 k2 hne
    | none =>
      intro r1 h1 r2 h2 hne
      have hsplit : ∀ x, x ∈ objKeys (m ++ [(range, [p])]) → x ∈ objKeys m ∨ x = range := by
        intro x hx
        rw [objKeys, List.map_append] at hx
        rcases List.mem_append.1 hx with hx | hx
        · left; exact hx
        · right; simpa using hx
      have hranged : ∀ y ∈ objKeys m, SatDisjoint S y range := fun y hy =>
        Hnone y range (findFirstIntersection_none S range m hff y hy)
      rcases hsplit r1 h1 with k1 | k1 <;> rcases hsplit r2 h2 with k2 | k2
      · exact hm r1 k1 r2 k2 hne
      · exact k2 ▸ hranged r1 k1
      · exact k1 ▸ satDisjoint_symm (hranged r2 k2)
      · exact absurd (k1.trans k2.symm) hne
  | some vi =>
    obtain ⟨v, i⟩ := vi
    obtain ⟨hint, _⟩ := findFirstIntersection_some S range m v i hff
    have hvmem : v ∈ objKeys m := findFirstIntersection_mem_keys S range m v i hff
    rw [insertRequestedVersion_eq_of_some S m range p v i hff]
    have hsub : ∀ x,
        x ∈ objKeys (objPush
          (if i = v then m else objDelete (objSet m i ((objLookup m v).getD [])) v) i p) →
        (x ∈ objKeys m ∧ (i = v ∨ x ≠ v)) ∨ x = i := by
      intro x hx
      rcases mem_objKeys_objPush _ i p x hx with hx' | hx'
      · by_cases hiv : i = v
        · rw [if_pos hiv] at hx'
          exact Or.inl ⟨hx', Or.inl hiv⟩
        · rw [if_neg hiv] at hx'
          obtain ⟨hx'', hxv⟩ := mem_objKeys_objDelete _ v x hx'
          rcases mem_objKeys_objSet m i _ x hx'' with h | h
          · exact Or.inl ⟨h, Or.inr hxv⟩
          · exact Or.inr h
      · exact Or.inr hx'
    have hdisjI : ∀ y ∈ objKeys m, y ≠ v → SatDisjoint S i y := by
      intro y hy hyv w hw
      obtain ⟨hwi, hwy⟩ := hw
      rw [Hsound v range i hint w] at hwi
      have hv : S.satisfies w v = true := by
        rw [Bool.and_eq_true] at hwi
        exact hwi.1
      exact hm v hvmem y hy (fun hc => hyv hc.symm) w ⟨hv, hwy⟩
    intro r1 h1 r2 h2 hne
    rcases hsub r1 h1 with ⟨k1, hc1⟩ | k1 <;> rcases hsub r2 h2 with ⟨k2, hc2⟩ | k2
    · exact hm r1 k1 r2 k2 hne
    · subst k2
      have hr1v : r1 ≠ v := by
        rcases hc1 with hiv | h
        · rw [← hiv]; exact hne
        · exact h
      exact satDisjoint_symm (hdisjI r1 k1 hr1v)
    · subst k1
      have hr2v : r2 ≠ v := by
        rcases hc2 with hiv | h
        · rw [← hiv]; exact fun hc => hne hc.symm
        · exact h
      exact hdisjI r2 k2 hr2v
    · exact absurd (k1.trans k2.symm) hne

theorem coalesce_inv_step (S : SemverOps)
    (Hsound : ∀ a b i, S.intersect a b = some i →
      ∀ w, S.satisfies w i = (S.satisfies w a && S.satisfies w b))
    (Hnone : ∀ a b, S.intersect a b = none → SatDisjoint S a b)
    (rd : DependencyRequests) (dep range : String) (path : ModulePath)
    (hrd : ∀ e ∈ rd, ∀ r1 ∈ objKeys e.2, ∀ r2 ∈ objKeys e.2, r1 ≠ r2 → SatDisjoint S r1 r2) :
    ∀ e ∈ objSet rd dep (_insertRequestedVersion S ((objLookup rd dep).getD []) range path),
      ∀ r1 ∈ objKeys e.2, ∀ r2 ∈ objKeys e.2, r1 ≠ r2 → SatDisjoint S r1 r2 := by
  intro e he
  rcases mem_objSet rd dep _ e he with he' | he'
  · exact hrd e he'
  · subst he'
    apply insertRequestedVersion_preserves_disjoint S Hsound Hnone _ range path
    cases hl : objLookup rd dep with
    | none =>
      intro r1 h1
      simp [objKeys] at h1
    | some inn =>
      simp only [Option.getD_some]
      exact hrd (dep, inn) (objLookup_mem rd dep inn hl)

theorem coalesce_inv_main (S : SemverOps)
    (Hsound : ∀ a b i, S.intersect a b = some i →
      ∀ w, S.satisfies w i = (S.satisfies w a && S.satisfies w b))
    (Hnone : ∀ a b, S.intersect a b = none → SatDisjoint S a b)
    (localModules : List ModuleInfo) :
    ∀ e ∈ findRequestedDependencies S localModules,
      ∀ r1 ∈ objKeys e.2, ∀ r2 ∈ objKeys e.2, r1 ≠ r2 → SatDisjoint S r1 r2 := by
  rw [findRequestedDependencies]
  have hdeps : ∀ (deps : List (String × String)) (mp : ModulePath) (rd : DependencyRequests),
      (∀ e ∈ rd, ∀ r1 ∈ objKeys e.2, ∀ r2 ∈ objKeys e.2, r1 ≠ r2 → SatDisjoint S r1 r2) →
      ∀ e ∈ deps.foldl (fun rd dep =>
          objSet rd dep.1
            (_insertRequestedVersion S ((objLookup rd dep.1).getD []) dep.2 mp)) rd,
        ∀ r1 ∈ objKeys e.2, ∀ r2 ∈ objKeys e.2, r1 ≠ r2 → SatDisjoint S r1 r2 := by
    intro deps
    induction deps with
    | nil => intro mp rd hrd; exact hrd
    | cons d rest ih =>
      intro mp rd hrd
      simp only [List.foldl_cons]
      exact ih mp _ (coalesce_inv_step S Hsound Hnone rd d.1 d.2 mp hrd)
  have hmods : ∀ (mods : List ModuleInfo) (rd : DependencyRequests),
      (∀ e ∈ rd, ∀ r1 ∈ objKeys e.2, ∀ r2 ∈ objKeys e.2, r1 ≠ r2 → SatDisjoint S r1 r2) →
      ∀ e ∈ mods.foldl (fun rd module =>
          module.dependencies.foldl (fun rd dep =>
            objSet rd dep.1
              (_insertRequestedVersion S ((objLookup rd dep.1).getD []) dep.2
                module.fullModulePath)) rd) rd,
        ∀ r1 ∈ objKeys e.2, ∀ r2 ∈ objKeys e.2, r1 ≠ r2 → SatDisjoint S r1 r2 := by
    intro mods
    induction mods with
    | nil => intro rd hrd; exact hrd
    | cons module rest ih =>
      intro rd hrd
      simp only [List.foldl_cons]
      exact ih _ (hdeps module.dependencies module.fullModulePath rd hrd)
  intro e he
  exact hmods localModules [] (by intro e' he'; cases he') e he

/-- C3: in the output of the request coalescer, any two distinct range keys
stored under one dependency name have an empty or undefined semver
intersection: the intersection primitive either fails on them, or returns a
range satisfied by no version.  The hypotheses pin down the contract of the
external intersection primitive: a successful intersection denotes the
conjunction of its inputs, and a failed intersection means no common
version. -/
theorem findRequestedDependencies_ranges_nonintersecting (S : SemverOps)
    (localModules : List ModuleInfo)
    (Hsound : ∀ a b i, S.intersect a b = some i →
      ∀ w, S.satisfies w i = (S.satisfies w a && S.satisfies w b))
    (Hnone : ∀ a b, S.intersect a b = none → SatDisjoint S a b) :
    ∀ name inner, objLookup (findRequestedDependencies S localModules) name = some inner →
      ∀ r1 ∈ objKeys inner, ∀ r2 ∈ objKeys inner, r1 ≠ r2 →
        S.intersect r1 r2 = none ∨
        ∃ i, S.intersect r1 r2 = some i ∧ ∀ w, S.satisfies w i = false := by
  intro name inner hlook r1 h1 r2 h2 hne
  have hdisj := coalesce_inv_main S Hsound Hnone localModules (name, inner)
    (objLookup_mem _ name inner hlook) r1 h1 r2 h2 hne
  cases hi : S.intersect r1 r2 with
  | none => left; rfl
  | some i =>
    right
    refine ⟨i, rfl, ?_⟩
    intro w
    rw [Hsound r1 r2 i hi w]
    cases hA : S.satisfies w r1 with
    | false => simp
    | true =>
      cases hB : S.satisfies w r2 with
      | false => simp
      | true => exact absurd ⟨hA, hB⟩ (hdisj w)

/-- C3 witness: two coalesced ranges of `left-pad` produced from two local
modules indeed fail to intersect. -/
theorem findRequestedDependencies_ranges_nonintersecting_witness :
    semverTrivial.intersect "^1.0.0" "git:x" = none ∨
    ∃ i, semverTrivial.intersect "^1.0.0" "git:x" = some i ∧
      ∀ w, semverTrivial.satisfies w i = false := by
  apply findRequestedDependencies_ranges_nonintersecting semverTrivial [moduleA, moduleB]
    (by intro a b i h; simp [semverTrivial] at h)
    (by intro a b _ w hw; simp [semverTrivial] at hw)
    "left-pad"
    [("^1.0.0", [["modules", "module-a"]]), ("git:x", [["modules", "module-b"]])]
    rfl
    "^1.0.0" (by simp [objKeys]) "git:x" (by simp [objKeys]) (by decide)

/-! ## C7: the satisfaction filter -/

theorem objDelete_eq_self_of_lookup_none {α β : Type} [DecidableEq α] (m : List (α × β))
    (a : α) (h : objLookup m a = none) : objDelete m a = m := by
  rw [objDelete]
  apply List.filter_eq_self.2
  intro p hp
  have hnk : a ∉ objKeys m := (objLookup_eq_none_iff m a).1 h
  simp only [decide_eq_true_eq]
  intro hc
  exact hnk (List.mem_map.2 ⟨p, hp, hc⟩)

theorem handleInstalled_char (S : SemverOps) (n r : String) (installed : List ModuleInfo)
    (rd : DependencyRequests) (inner : RangeMap) (h : objLookup rd n = some inner) :
    (objLookup (_handleInstalledModuleSatisfiesDependency S n r installed rd) n
      = some (if (installed.any fun d => decide (d.name = n) && S.satisfies d.version r) = true
              then objDelete inner r else inner))
    ∧ ∀ k, k ≠ n →
        objLookup (_handleInstalledModuleSatisfiesDependency S n r installed rd) k
          = objLookup rd k := by
  rw [_handleInstalledModuleSatisfiesDependency]
  cases hf : installed.find? (fun d => decide (d.name = n) && S.satisfies d.version r) with
  | some d =>
    have hany : (installed.any fun d => decide (d.name = n) && S.satisfies d.version r) = true :=
      List.any_eq_true.2 ⟨d, List.mem_of_find?_eq_some hf, by simpa using List.find?_some hf⟩
    rw [h]
    constructor
    · rw [objLookup_objSet_self, if_pos hany]
      rfl
    · intro k hk
      exact objLookup_objSet_ne rd n _ k hk
  | none =>
    have hany : (installed.any fun d => decide (d.name = n) && S.satisfies d.version r) = false := by
      apply List.any_eq_false.2
      intro x hx
      simpa using List.find?_eq_none.1 hf x hx
    rw [hany]
    constructor
    · rw [if_neg (by simp)]
      exact h
    · intro k _
      rfl

theorem handleLocal_char (S : SemverOps) (n r : String) (localModules : List ModuleInfo)
    (assume : Bool) (rd : DependencyRequests) (inner : RangeMap)
    (h : objLookup rd n = some inner) :
    (objLookup (_handleLocalModuleSatisfiesDependency S n r localModules assume rd) n
      = some (if (localModules.any (_localModuleSatisfies S assume n r)) = true
              then objDelete inner r else inner))
    ∧ ∀ k, k ≠ n →
        objLookup (_handleLocalModuleSatisfiesDependency S n r localModules assume rd) k
          = objLookup rd k := by
  rw [_handleLocalModuleSatisfiesDependency]
  cases hf : localModules.find? (_localModuleSatisfies S assume n r) with
  | some d =>
    have hany : (localModules.any (_localModuleSatisfies S assume n r)) = true :=
      List.any_eq_true.2 ⟨d, List.mem_of_find?_eq_some hf, by simpa using List.find?_some hf⟩
    rw [h]
    constructor
    · rw [objLookup_objSet_self, if_pos hany]
      rfl
    · intro k hk
      exact objLookup_objSet_ne rd n _ k hk
  | none =>
    have hany : (localModules.any (_localModuleSatisfies S assume n r)) = false := by
      apply List.any_eq_false.2
      intro x hx
      simpa using List.find?_eq_none.1 hf x hx
    rw [hany]
    constructor
    · rw [if_neg (by simp)]
      exact h
    · intro k _
      rfl

theorem filterRangeStep_char (S : SemverOps) (localModules installed : List ModuleInfo)
    (link assume : Bool) (n : String) (rd : DependencyRequests) (inner : RangeMap)
    (r : String) (h : objLookup rd n = some inner) :
    (objLookup (_filterRangeStep S localModules installed link assume n rd r) n
      = some (if dropCondition S localModules installed link assume n r = true
              then objDelete inner r else inner))
    ∧ ∀ k, k ≠ n →
        objLookup (_filterRangeStep S localModules installed link assume n rd r) k
          = objLookup rd k := by
  obtain ⟨hI1, hI2⟩ := handleInstalled_char S n r installed rd inner h
  rw [_filterRangeStep]
  by_cases hinst : (installed.any fun d => decide (d.name = n) && S.satisfies d.version r) = true
  · -- the installed check fired: the entry is deleted and the local check is skipped
    rw [if_pos hinst] at hI1
    have hdrop : dropCondition S localModules installed link assume n r = true := by
      rw [dropCondition, hinst, Bool.true_or]
    have hsat : objLookup
        ((objLookup (_handleInstalledModuleSatisfiesDependency S n r installed rd) n).getD [])
        r = none := by
      rw [hI1]
      exact objLookup_objDelete_self inner r
    rw [if_pos (Or.inl hsat)]
    exact ⟨by rw [hI1, if_pos hdrop], hI2⟩
  · have hinstf : (installed.any fun d => decide (d.name = n) && S.satisfies d.version r)
        = false := Bool.eq_false_iff.2 hinst
    rw [if_neg hinst] at hI1
    by_cases hpresent : objLookup inner r = none
    · -- the range key is not present: both handlers leave everything unchanged
      have hsat : objLookup
          ((objLookup (_handleInstalledModuleSatisfiesDependency S n r installed rd) n).getD [])
          r = none := by
        rw [hI1]
        exact hpresent
      rw [if_pos (Or.inl hsat)]
      refine ⟨?_, hI2⟩
      rw [hI1, objDelete_eq_self_of_lookup_none inner r hpresent, ite_self]
    · by_cases hlink : link = false
      · have hdrop : dropCondition S localModules installed link assume n r = false := by
          rw [dropCondition, hinstf, hlink]
          rfl
        rw [if_pos (Or.inr hlink)]
        exact ⟨by rw [hI1, hdrop, if_neg (by simp)], hI2⟩
      · have hsat : ¬(objLookup
            ((objLookup (_handleInstalledModuleSatisfiesDependency S n r installed rd) n).getD [])
            r = none ∨ link = false) := by
          rw [hI1]
          rintro (hc | hc)
          · exact hpresent hc
          · exact hlink hc
        rw [if_neg hsat]
        obtain ⟨hL1, hL2⟩ := handleLocal_char S n r localModules assume
          (_handleInstalledModuleSatisfiesDependency S n r installed rd) inner hI1
        have hlinkt : link = true := by
          cases link with
          | false => exact absurd rfl hlink
          | true => rfl
        have hdrop : dropCondition S localModules installed link assume n r
            = (localModules.any (_localModuleSatisfies S assume n r)) := by
          rw [dropCondition, hinstf, hlinkt, Bool.false_or, Bool.true_and]
        refine ⟨?_, ?_⟩
        · rw [hL1, hdrop]
        · intro k hk
          rw [hL2 k hk, hI2 k hk]

theorem filterRange_foldl_char (S : SemverOps) (localModules installed : List ModuleInfo)
    (link assume : Bool) (n : String) :
    ∀ (L : List String) (rd : DependencyRequests) (inner : RangeMap),
      objLookup rd n = some inner →
      objLookup (L.foldl (_filterRangeStep S localModules installed link assume n) rd) n
        = some (inner.filter fun rv =>
            !(decide (rv.1 ∈ L) && dropCondition S localModules installed link assume n rv.1))
      ∧ ∀ k, k ≠ n →
          objLookup (L.foldl (_filterRangeStep S localModules installed link assume n) rd) k
            = objLookup rd k := by
  intro L
  induction L with
  | nil =>
    intro rd inner h
    constructor
    · rw [List.foldl_nil, h, List.filter_eq_self.2 (by intro a _; simp)]
    · intro k _
      rfl
  | cons r L' ih =>
    intro rd inner h
    obtain ⟨hs1, hs2⟩ := filterRangeStep_char S localModules installed link assume n rd inner r h
    obtain ⟨hi1, hi2⟩ := ih (_filterRangeStep S localModules installed link assume n rd r) _ hs1
    constructor
    · rw [List.foldl_cons, hi1]
      congr 1
      by_cases hdrop : dropCondition S localModules installed link assume n r = true
      · rw [if_pos hdrop, objDelete, List.filter_filter]
        apply List.filter_congr
        intro rv _
        by_cases hr : rv.1 = r
        · simp [hr, hdrop]
        · simp [hr, List.mem_cons]
      · rw [if_neg hdrop]
        apply List.filter_congr
        intro rv _
        by_cases hr : rv.1 = r
        · have hdf : dropCondition S localModules installed link assume n rv.1 = false := by
            rw [hr]
            exact Bool.eq_false_iff.2 hdrop
          simp [hr, hdf, List.mem_cons]
          intro _
          exact Bool.eq_false_iff.2 hdrop
        · simp [hr, List.mem_cons]
    · intro k hk
      rw [List.foldl_cons, hi2 k hk, hs2 k hk]

theorem filterNameStep_char_some (S : SemverOps) (localModules installed : List ModuleInfo)
    (link assume : Bool) (rd : DependencyRequests) (n : String) (inner : RangeMap)
    (h : objLookup rd n = some inner) :
    (objLookup (_filterNameStep S localModules installed link assume rd n) n
      = (if (inner.filter fun rv =>
            !(dropCondition S localModules installed link assume n rv.1)).isEmpty = true
         then none
         else some (inner.filter fun rv =>
            !(dropCondition S localModules installed link assume n rv.1))))
    ∧ ∀ k, k ≠ n →
        objLookup (_filterNameStep S localModules installed link assume rd n) k
          = objLookup rd k := by
  rw [_filterNameStep, h]
  simp only [Option.getD_some]
  obtain ⟨hf1, hf2⟩ := filterRange_foldl_char S localModules installed link assume n
    (objKeys inner) rd inner h
  have hkept : (inner.filter fun rv =>
        !(decide (rv.1 ∈ objKeys inner)
          && dropCondition S localModules installed link assume n rv.1))
      = inner.filter fun rv =>
        !(dropCondition S localModules installed link assume n rv.1) := by
    apply List.filter_congr
    intro rv hrv
    have hmem : rv.1 ∈ objKeys inner := List.mem_map.2 ⟨rv, hrv, rfl⟩
    simp [hmem]
  rw [hkept] at hf1
  rw [hf1]
  simp only [Option.getD_some]
  by_cases hemp : (inner.filter fun rv =>
      !(dropCondition S localModules installed link assume n rv.1)).isEmpty = true
  · rw [if_pos hemp, if_pos hemp]
    constructor
    · exact objLookup_objDelete_self _ n
    · intro k hk
      rw [objLookup_objDelete_ne _ n k hk, hf2 k hk]
  · rw [if_neg hemp, if_neg hemp]
    exact ⟨hf1, hf2⟩

theorem filterNameStep_char_none (S : SemverOps) (localModules installed : List ModuleInfo)
    (link assume : Bool) (rd : DependencyRequests) (n : String)
    (h : objLookup rd n = none) :
    _filterNameStep S localModules installed link assume rd n = rd := by
  rw [_filterNameStep, h]
  simp only [Option.getD_none]
  rw [show objKeys ([] : RangeMap) = [] from rfl, List.foldl_nil, h]
  simp only [Option.getD_none, List.isEmpty_nil, if_pos rfl]
  exact objDelete_eq_self_of_lookup_none rd n h

theorem filterName_foldl_char (S : SemverOps) (localModules installed : List ModuleInfo)
    (link assume : Bool) :
    ∀ (N : List String) (rd : DependencyRequests), N.Nodup →
      (∀ k, k ∉ N →
        objLookup (N.foldl (_filterNameStep S localModules installed link assume) rd) k
          = objLookup rd k)
      ∧ (∀ n ∈ N,
          (∀ inner, objLookup rd n = some inner →
            objLookup (N.foldl (_filterNameStep S localModules installed link assume) rd) n
              = (if (inner.filter fun rv =>
                    !(dropCondition S localModules installed link assume n rv.1)).isEmpty = true
                 then none
                 else some (inner.filter fun rv =>
                    !(dropCondition S localModules installed link assume n rv.1))))
          ∧ (objLookup rd n = none →
            objLookup (N.foldl (_filterNameStep S localModules installed link assume) rd) n
              = none)) := by
  intro N
  induction N with
  | nil =>
    intro rd _
    exact ⟨fun k _ => rfl, fun n hn => absurd hn (List.not_mem_nil n)⟩
  | cons n N' ih =>
    intro rd hnd
    rw [List.nodup_cons] at hnd
    obtain ⟨hnmem, hnd'⟩ := hnd
    obtain ⟨ihk, ihn⟩ := ih (_filterNameStep S localModules installed link assume rd n) hnd'
    constructor
    · intro k hk
      rw [List.foldl_cons]
      have hk1 : k ∉ N' := fun hc => hk (List.mem_cons_of_mem n hc)
      have hk2 : k ≠ n := fun hc => hk (hc ▸ List.mem_cons_self n N')
      rw [ihk k hk1]
      cases hl : objLookup rd n with
      | some inner =>
        exact (filterNameStep_char_some S localModules installed link assume rd n inner hl).2 k hk2
      | none =>
        rw [filterNameStep_char_none S localModules installed link assume rd n hl]
    · intro m hm
      rw [List.foldl_cons]
      rcases List.mem_cons.1 hm with hm | hm
      · subst hm
        constructor
        · intro inner hl
          rw [ihk m hnmem]
          exact (filterNameStep_char_some S localModules installed link assume rd m inner hl).1
        · intro hl
          rw [ihk m hnmem, filterNameStep_char_none S localModules installed link assume rd m hl]
          exact hl
      · have hmn : m ≠ n := fun hc => hnmem (hc ▸ hm)
        obtain ⟨ih1, ih2⟩ := ihn m hm
        constructor
        · intro inner hl
          apply ih1 inner
          cases hln : objLookup rd n with
          | some innerN =>
            rw [(filterNameStep_char_some S localModules installed link assume rd n innerN
              hln).2 m hmn]
            exact hl
          | none =>
            rw [filterNameStep_char_none S localModules installed link assume rd n hln]
            exact hl
        · intro hl
          apply ih2
          cases hln : objLookup rd n with
          | some innerN =>
            rw [(filterNameStep_char_some S localModules installed link assume rd n innerN
              hln).2 m hmn]
            exact hl
          | none =>
            rw [filterNameStep_char_none S localModules installed link assume rd n hln]
            exact hl

/-- C7: the satisfaction filter drops a `(name, range)` entry exactly when
the drop condition holds: some installed artifact of the same name has a
version satisfying the range, or local modules will be linked and some local
module of the same name satisfies it (a valid range satisfied by its
version, or an invalid range trusted via the non-semver flag).  Entries
whose drop condition fails survive in order, and a dependency name whose
entries are all dropped disappears from the result entirely. -/
theorem removeAlreadySatisfiedDependencies_spec (S : SemverOps)
    (requestedDependencies : DependencyRequests)
    (localModules alreadyInstalledDependencies : List ModuleInfo)
    (linkModules assume : Bool)
    (hnd : (objKeys requestedDependencies).Nodup) :
    (∀ n inner, objLookup requestedDependencies n = some inner →
      objLookup (removeAlreadySatisfiedDependencies S requestedDependencies localModules
          alreadyInstalledDependencies linkModules assume) n
        = (if (inner.filter fun rv =>
              !(dropCondition S localModules alreadyInstalledDependencies linkModules assume
                n rv.1)).isEmpty = true
           then none
           else some (inner.filter fun rv =>
              !(dropCondition S localModules alreadyInstalledDependencies linkModules assume
                n rv.1))))
    ∧ (∀ n, objLookup requestedDependencies n = none →
        objLookup (removeAlreadySatisfiedDependencies S requestedDependencies localModules
            alreadyInstalledDependencies linkModules assume) n = none) := by
  obtain ⟨hk, hn⟩ := filterName_foldl_char S localModules alreadyInstalledDependencies
    linkModules assume (objKeys requestedDependencies) requestedDependencies hnd
  constructor
  · intro n inner h
    exact (hn n (mem_objKeys_of_lookup requestedDependencies n inner h)).1 inner h
  · intro n h
    by_cases hmem : n ∈ objKeys requestedDependencies
    · exact (hn n hmem).2 h
    · rw [removeAlreadySatisfiedDependencies, hk n hmem]
      exact h

/-- C7 witness: a request fully satisfied by an installed artifact is
dropped and its dependency name disappears from the filter's output. -/
theorem removeAlreadySatisfiedDependencies_spec_witness :
    objLookup (removeAlreadySatisfiedDependencies semverCaret
        [("left-pad", [("^1.0.0", [["modules", "module-a"]])])]
        [] [leftPadInstalled] true false) "left-pad" = none := by
  rw [(removeAlreadySatisfiedDependencies_spec semverCaret
      [("left-pad", [("^1.0.0", [["modules", "module-a"]])])]
      [] [leftPadInstalled] true false (by decide)).1
    "left-pad" [("^1.0.0", [["modules", "module-a"]])] rfl]
  rfl

/-! ## C9: symlink repair source priority -/

theorem scanInstalled_direct (S : SemverOps) (module : ModuleInfo) (dep range : String) :
    ∀ (l : List ModuleInfo) (acc : Option ModuleInfo),
      (∃ m ∈ l, m.name = dep ∧
        m.fullModulePath = module.fullModulePath ++ ["node_modules"] ++ m.folderName) →
      (_scanInstalledForDependency S module dep range l acc).1 = true := by
  intro l
  induction l with
  | nil =>
    intro acc h
    obtain ⟨m, hm, _⟩ := h
    exact absurd hm (List.not_mem_nil m)
  | cons m0 rest ih =>
    intro acc h
    rw [_scanInstalledForDependency]
    by_cases hname : m0.name ≠ dep
    · rw [if_pos hname]
      apply ih
      obtain ⟨m, hm, hmp⟩ := h
      rcases List.mem_cons.1 hm with hm' | hm'
      · subst hm'
        exact absurd hmp.1 hname
      · exact ⟨m, hm', hmp⟩
    · rw [if_neg hname]
      by_cases hpath : m0.fullModulePath
          = module.fullModulePath ++ ["node_modules"] ++ m0.folderName
      · rw [if_pos hpath]
      · rw [if_neg hpath]
        have hrest : ∃ m ∈ rest, m.name = dep ∧
            m.fullModulePath = module.fullModulePath ++ ["node_modules"] ++ m.folderName := by
          obtain ⟨m, hm, hmp⟩ := h
          rcases List.mem_cons.1 hm with hm' | hm'
          · subst hm'
            exact absurd hmp.2 hpath
          · exact ⟨m, hm', hmp⟩
        by_cases hsat : S.satisfies m0.version range = true
        · rw [if_pos hsat]
          exact ih _ hrest
        · rw [if_neg hsat]
          exact ih _ hrest

theorem scanInstalled_no_direct (S : SemverOps) (module : ModuleInfo) (dep range : String) :
    ∀ (l : List ModuleInfo) (acc : Option ModuleInfo),
      (∀ m ∈ l, ¬(m.name = dep ∧
        m.fullModulePath = module.fullModulePath ++ ["node_modules"] ++ m.folderName)) →
      (_scanInstalledForDependency S module dep range l acc).1 = false := by
  intro l
  induction l with
  | nil => intro acc _; rfl
  | cons m0 rest ih =>
    intro acc h
    rw [_scanInstalledForDependency]
    by_cases hname : m0.name ≠ dep
    · rw [if_pos hname]
      exact ih acc fun m hm => h m (List.mem_cons_of_mem m0 hm)
    · rw [if_neg hname]
      have hname' : m0.name = dep := by
        by_contra hc
        exact hname hc
      have hpath : ¬(m0.fullModulePath
          = module.fullModulePath ++ ["node_modules"] ++ m0.folderName) := by
        intro hc
        exact h m0 (List.mem_cons_self m0 rest) ⟨hname', hc⟩
      rw [if_neg hpath]
      by_cases hsat : S.satisfies m0.version range = true
      · rw [if_pos hsat]
        exact ih _ fun m hm => h m (List.mem_cons_of_mem m0 hm)
      · rw [if_neg hsat]
        exact ih _ fun m hm => h m (List.mem_cons_of_mem m0 hm)

theorem scanInstalled_no_direct_no_sat (S : SemverOps) (module : ModuleInfo)
    (dep range : String) :
    ∀ (l : List ModuleInfo) (acc : Option ModuleInfo),
      (∀ m ∈ l, ¬(m.name = dep ∧
        m.fullModulePath = module.fullModulePath ++ ["node_modules"] ++ m.folderName)) →
      (∀ m ∈ l, ¬(m.name = dep ∧ S.satisfies m.version range = true)) →
      _scanInstalledForDependency S module dep range l acc = (false, acc) := by
  intro l
  induction l with
  | nil => intro acc _ _; rfl
  | cons m0 rest ih =>
    intro acc hdir hsat
    rw [_scanInstalledForDependency]
    by_cases hname : m0.name ≠ dep
    · rw [if_pos hname]
      exact ih acc (fun m hm => hdir m (List.mem_cons_of_mem m0 hm))
        (fun m hm => hsat m (List.mem_cons_of_mem m0 hm))
    · rw [if_neg hname]
      have hname' : m0.name = dep := by
        by_contra hc
        exact hname hc
      have hpath : ¬(m0.fullModulePath
          = module.fullModulePath ++ ["node_modules"] ++ m0.folderName) :=
        fun hc => hdir m0 (List.mem_cons_self m0 rest) ⟨hname', hc⟩
      rw [if_neg hpath]
      have hns : ¬(S.satisfies m0.version range = true) :=
        fun hc => hsat m0 (List.mem_cons_self m0 rest) ⟨hname', hc⟩
      rw [if_neg hns]
      exact ih acc (fun m hm => hdir m (List.mem_cons_of_mem m0 hm))
        (fun m hm => hsat m (List.mem_cons_of_mem m0 hm))

/-- C9: the symlink repair pass chooses its source with the priority direct
install, then local module, then installed artifact located elsewhere: an
artifact installed at exactly the module's own
`node_modules/<canonical folder>` means no link is created; otherwise, when
local modules are linked, the first local module satisfying the range (under
the semver-validity rules) becomes the link source even when a satisfying
installed artifact exists elsewhere; and when neither a direct install, a
satisfying local module, nor a satisfying installed artifact exists, the
decision is a logged error, not an abort. -/
theorem symlinkDecision_source_priority (S : SemverOps) (link assume : Bool)
    (localModules installedDependencies : List ModuleInfo) (module : ModuleInfo)
    (dep range : String) :
    ((∃ m ∈ installedDependencies, m.name = dep ∧
        m.fullModulePath = module.fullModulePath ++ ["node_modules"] ++ m.folderName) →
      ∃ m, _symlinkDecisionFor S link assume localModules installedDependencies module dep range
        = SymlinkDecision.alreadyInstalled m)
    ∧ ((∀ m ∈ installedDependencies, ¬(m.name = dep ∧
        m.fullModulePath = module.fullModulePath ++ ["node_modules"] ++ m.folderName)) →
      link = true →
      ∀ m0, localModules.find? (fun localModule =>
          decide (localModule.name = dep) &&
          ((S.validRange range && S.satisfies localModule.version range)
            || (!S.validRange range && assume))) = some m0 →
      _symlinkDecisionFor S link assume localModules installedDependencies module dep range
        = SymlinkDecision.link m0)
    ∧ ((∀ m ∈ installedDependencies, ¬(m.name = dep ∧
        m.fullModulePath = module.fullModulePath ++ ["node_modules"] ++ m.folderName)) →
      (∀ m ∈ installedDependencies, ¬(m.name = dep ∧ S.satisfies m.version range = true)) →
      (link = false ∨ localModules.find? (fun localModule =>
          decide (localModule.name = dep) &&
          ((S.validRange range && S.satisfies localModule.version range)
            || (!S.validRange range && assume))) = none) →
      _symlinkDecisionFor S link assume localModules installedDependencies module dep range
        = SymlinkDecision.noSourceError) := by
  refine ⟨?_, ?_, ?_⟩
  · intro hdir
    rw [_symlinkDecisionFor]
    have h1 := scanInstalled_direct S module dep range installedDependencies none hdir
    rw [if_pos h1]
    exact ⟨_, rfl⟩
  · intro hnodir hlink m0 hfind
    rw [_symlinkDecisionFor]
    have h1 := scanInstalled_no_direct S module dep range installedDependencies none hnodir
    rw [h1]
    simp only [Bool.not_false, Bool.or_true, Bool.true_and, hlink, if_pos rfl, hfind]
    simp
  · intro hnodir hnosat hrest
    rw [_symlinkDecisionFor]
    have h2 := scanInstalled_no_direct_no_sat S module dep range installedDependencies none
      hnodir hnosat
    rw [h2]
    rcases hrest with hlink | hfind
    · simp only [hlink, Bool.and_false, if_neg (by simp : ¬(false = true))]
    · simp only [hfind]
      cases link with
      | false => rfl
      | true => rfl

/-- C9 witness: a directly installed artifact short-circuits the repair; no
link is created for it. -/
theorem symlinkDecision_source_priority_witness :
    ∃ m, _symlinkDecisionFor semverCaret true false [] [leftPadDirect] moduleA
        "left-pad" "^1.0.0" = SymlinkDecision.alreadyInstalled m :=
  (symlinkDecision_source_priority semverCaret true false [] [leftPadDirect] moduleA
    "left-pad" "^1.0.0").1
    ⟨leftPadDirect, by simp, by constructor <;> rfl⟩

/-- C10 witness: a non-`ENOENT` removal error still resolves, with the error
logged. -/
theorem systoolsDelete_always_resolves_witness :
    (systoolsDelete (some "EACCES")).resolved = true ∧
    ((systoolsDelete (some "EACCES")).loggedError = true ↔
      ∃ code, (some "EACCES" : RemoveOutcome) = some code ∧ code ≠ "ENOENT") :=
  systoolsDelete_always_resolves (some "EACCES")
